import Mathlib

/-!
Formal model of the multi-tenant RAG system's core logic, translated from
`app/services/persistence.py`, `app/services/retrieval_engine.py` and
`app/workers/pubsub_runner.py`.

Modelling conventions:
* SQL tables are lists of row structures; row order models physical insertion
  order, and `ON CONFLICT ... DO UPDATE` updates the conflicting row in place.
* Timestamps (`NOW()`, timestamptz columns) are integers passed explicitly.
* Python floats (similarity scores, `ts_rank_cd` ranks) are modelled as `ℚ`.
* Python's `sorted(..., reverse=True)` and SQL `ORDER BY k DESC LIMIT n` are
  modelled by a stable descending insertion sort (`sortByDesc`), which agrees
  with any stable sort on the same key.
* External black boxes (SHA-256, `to_tsvector`, `plainto_tsquery`, `@@`
  matching, cosine similarity, the embedding provider) are parameters of the
  functions that invoke them; the surrounding control flow is taken from the
  source.
-/

/-- Stable insertion of `x` into a descending-sorted list: `x` is placed before
the first element whose key is not strictly greater than `x`'s key, so `x`
ends up after all earlier elements with an equal key (stability). -/
def insertTopBy {α : Type} {κ : Type} [LinearOrder κ] (key : α → κ) (x : α) :
    List α → List α
  | [] => [x]
  | y :: ys => if key x < key y then y :: insertTopBy key x ys else x :: y :: ys

/-- Stable descending sort by `key`; models Python's stable
`sorted(..., key=key, reverse=True)` and deterministic `ORDER BY key DESC`. -/
def sortByDesc {α : Type} {κ : Type} [LinearOrder κ] (key : α → κ) :
    List α → List α
  | [] => []
  | x :: xs => insertTopBy key x (sortByDesc key xs)

/-! ## Data model

Row types for the three tables created in `MetadataRepository._ensure_tables`,
the Pinecone vector records, and the pipeline output `ChunkEmbedding`. -/

/-- A row of the `chunks` table. `tsv` models the stored `tsvector` as the
list of lexemes produced by `to_tsvector`. -/
structure ChunkRow where
  chunk_id : String
  tenant_id : String
  document_id : String
  chunk_index : Int
  content : String
  chunk_hash : String
  schema_version : String
  embedding_model : String
  source_uri : Option String
  page_number : Option Int
  metadata : List (String × String)
  tsv : List String
  created_at : Int
  updated_at : Int
deriving DecidableEq, Repr

/-- A row of the `documents` table. -/
structure DocumentRow where
  document_id : String
  tenant_id : String
  filename : String
  gcs_uri : String
  status : String
  chunk_count : Option Int
  last_error : Option String
  submitted_at : Option Int
  updated_at : Int
  last_indexed_at : Option Int
  last_schema_version : Option String
  last_embedding_model : Option String
  reindex_attempts : Option Int
deriving DecidableEq, Repr

/-- A row of the `reindex_queue` table. -/
structure ReindexRow where
  id : Int
  tenant_id : String
  document_id : String
  reason : String
  priority : Int
  status : String
  attempts : Int
  last_error : Option String
  created_at : Int
  updated_at : Int
  processed_at : Option Int
deriving DecidableEq, Repr

/-- One vector stored in Pinecone: `ns` is the namespace (the upsert writes
`namespace=tenant_id`), `id` the vector id (the chunk id). -/
structure VectorEntry where
  ns : String
  id : String
  values : List ℚ
  metadata : List (String × String)
deriving DecidableEq, Repr

/-- Output element of `PDFEmbeddingPipeline.process` (dataclass
`ChunkEmbedding` in `pdf_embedding_pipeline.py`). -/
structure ChunkEmbedding where
  chunk_id : String
  text : String
  embedding : List ℚ
  metadata : List (String × String)
deriving DecidableEq, Repr

/-- Insertion-ordered dict write `m[k] = v`: updates the key in place when
present, appends otherwise, exactly like a Python `dict` assignment or
`{**m, k: v}` merge. -/
def dictInsert {α : Type} (k : String) (v : α) :
    List (String × α) → List (String × α)
  | [] => [(k, v)]
  | (k', v') :: rest =>
    if k' = k then (k, v) :: rest else (k', v') :: dictInsert k v rest

namespace MetadataRepository

/-- Parameters of `upsert_document` (all keyword arguments, optional ones
defaulting to `None`). -/
structure DocUpsertParams where
  document_id : String
  tenant_id : String
  filename : String
  gcs_uri : String
  status : String
  chunk_count : Option Int := none
  last_error : Option String := none
  submitted_at : Option Int := none
  last_indexed_at : Option Int := none
  last_schema_version : Option String := none
  last_embedding_model : Option String := none
  reindex_attempts : Option Int := none
deriving DecidableEq, Repr

/-- The `ON CONFLICT (document_id) DO UPDATE` row transformation of
`upsert_document`: `status`, `chunk_count` and `last_error` are overwritten
with the excluded values, the four indexing fields follow
`COALESCE(EXCLUDED.x, documents.x)`, and `updated_at` is set to `NOW()`.
`tenant_id`, `filename`, `gcs_uri` and `submitted_at` are not in the update
list. -/
def applyDocUpdate (p : DocUpsertParams) (now : Int) (row : DocumentRow) :
    DocumentRow :=
  { row with
    status := p.status
    chunk_count := p.chunk_count
    last_error := p.last_error
    last_indexed_at := p.last_indexed_at.orElse fun _ => row.last_indexed_at
    last_schema_version :=
      p.last_schema_version.orElse fun _ => row.last_schema_version
    last_embedding_model :=
      p.last_embedding_model.orElse fun _ => row.last_embedding_model
    reindex_attempts := p.reindex_attempts.orElse fun _ => row.reindex_attempts
    updated_at := now }

/-- The freshly inserted `documents` row (the `INSERT` column list of
`upsert_document`; `updated_at` takes its `DEFAULT NOW()`). -/
def insertedDoc (p : DocUpsertParams) (now : Int) : DocumentRow :=
  { document_id := p.document_id
    tenant_id := p.tenant_id
    filename := p.filename
    gcs_uri := p.gcs_uri
    status := p.status
    chunk_count := p.chunk_count
    last_error := p.last_error
    submitted_at := p.submitted_at
    updated_at := now
    last_indexed_at := p.last_indexed_at
    last_schema_version := p.last_schema_version
    last_embedding_model := p.last_embedding_model
    reindex_attempts := p.reindex_attempts }

/-- Model of `MetadataRepository.upsert_document`: insert by `document_id`, or update
the conflicting row per `applyDocUpdate`. -/
def upsert_document (docs : List DocumentRow) (p : DocUpsertParams)
    (now : Int) : List DocumentRow :=
  if docs.any (fun r => r.document_id == p.document_id) then
    docs.map fun r =>
      if r.document_id == p.document_id then applyDocUpdate p now r else r
  else
    docs ++ [insertedDoc p now]

end MetadataRepository

namespace MetadataRepository

/-- Python `a or b` on optional strings: falls through on `None` and on the
empty string (the only falsy `str`). -/
def pyOr (a b : Option String) : Option String :=
  match a with
  | some s => if s = "" then b else some s
  | none => b

/-- One record of the `records` list built at the top of `upsert_chunks`:
`chunk_hash` is the SHA-256 hex digest of the content (`hash` parameter),
`metadata` is `{**chunk.metadata, "document_id": document_id}`, `page_number`
is parsed from `metadata.get("page") or metadata.get("page_number")` with a
failed `int()` giving `NULL`, and `tsv` is
`to_tsvector(tsvector_config, content)` (`tsvectorOf` parameter). -/
def buildChunkRecord (hash : String → String)
    (tsvectorOf : String → String → List String)
    (defaultEmbeddingModel : String) (tenant_id document_id : String)
    (schema_version tsvector_config : String) (source_uri : Option String)
    (now : Int) (chunk : ChunkEmbedding) : ChunkRow :=
  let content := chunk.text
  let metadata := dictInsert "document_id" document_id chunk.metadata
  let pageRaw := pyOr (metadata.lookup "page") (metadata.lookup "page_number")
  { chunk_id := chunk.chunk_id
    tenant_id := tenant_id
    document_id := document_id
    chunk_index := (((metadata.lookup "chunk_index").bind String.toInt?).getD 0)
    content := content
    chunk_hash := hash content
    schema_version := schema_version
    embedding_model := (metadata.lookup "embedding_model").getD
      defaultEmbeddingModel
    source_uri := pyOr (pyOr source_uri (metadata.lookup "source"))
      (metadata.lookup "source_path")
    page_number := pageRaw.bind String.toInt?
    metadata := metadata
    tsv := tsvectorOf tsvector_config content
    created_at := now
    updated_at := now }

/-- The unique-index predicate of `chunks_tenant_hash_idx`. -/
def chunkKeyMatches (t h : String) (row : ChunkRow) : Bool :=
  row.tenant_id == t && row.chunk_hash == h

/-- Whether a `(tenant_id, chunk_hash)` key is present in the table. -/
def hasChunkKey (tbl : List ChunkRow) (t h : String) : Bool :=
  tbl.any (chunkKeyMatches t h)

/-- Execution of the `INSERT ... ON CONFLICT (tenant_id, chunk_hash) DO
UPDATE` statement for a single record: on conflict the stored row keeps its
`chunk_id` and `created_at` and takes the excluded `content`, `chunk_index`,
`document_id`, `schema_version`, `embedding_model`, `metadata`, `tsv` and
`updated_at`, with `source_uri` and `page_number` per
`COALESCE(EXCLUDED.x, chunks.x)`. -/
def applyChunkUpsert (tbl : List ChunkRow) (r : ChunkRow) : List ChunkRow :=
  if hasChunkKey tbl r.tenant_id r.chunk_hash then
    tbl.map fun row =>
      if chunkKeyMatches r.tenant_id r.chunk_hash row then
        { row with
          content := r.content
          chunk_index := r.chunk_index
          document_id := r.document_id
          schema_version := r.schema_version
          embedding_model := r.embedding_model
          source_uri := r.source_uri.orElse fun _ => row.source_uri
          page_number := r.page_number.orElse fun _ => row.page_number
          metadata := r.metadata
          tsv := r.tsv
          updated_at := r.updated_at }
      else row
  else tbl ++ [r]

/-- Model of `MetadataRepository.upsert_chunks`: early return `0` on an empty batch,
otherwise build the records and run the upsert statement once per record
(`executemany`), returning `len(records)`. -/
def upsert_chunks (tbl : List ChunkRow) (hash : String → String)
    (tsvectorOf : String → String → List String)
    (defaultEmbeddingModel : String) (tenant_id document_id : String)
    (chunks : List ChunkEmbedding) (schema_version tsvector_config : String)
    (source_uri : Option String) (now : Int) : List ChunkRow × Nat :=
  if chunks.isEmpty then (tbl, 0)
  else
    let records := chunks.map (buildChunkRecord hash tsvectorOf
      defaultEmbeddingModel tenant_id document_id schema_version
      tsvector_config source_uri now)
    (records.foldl applyChunkUpsert tbl, records.length)

/-- Model of `MetadataRepository.search_lexical`: filter the tenant's chunks by
`tsv @@ plainto_tsquery(config, q)` (`tsMatch`/`plainToTsquery` parameters),
attach `ts_rank_cd(tsv, query)` (`rankOf` parameter), order by rank
descending, and take `limit` rows. The returned pair carries the selected
row and its `rank` column. -/
def search_lexical (tbl : List ChunkRow)
    (plainToTsquery : String → String → List String)
    (tsMatch : List String → List String → Bool)
    (rankOf : List String → List String → ℚ)
    (tenant_id query : String) (limit : Nat) (tsvector_config : String) :
    List (ChunkRow × ℚ) :=
  let q := plainToTsquery tsvector_config query
  let matching := tbl.filter fun c => c.tenant_id == tenant_id && tsMatch c.tsv q
  (sortByDesc (fun p => p.2) (matching.map fun c => (c, rankOf c.tsv q))).take
    limit

/-- Model of `MetadataRepository.fetch_chunks_by_ids`: early return on an empty id
list, otherwise the tenant's rows whose `chunk_id` is in the list. -/
def fetch_chunks_by_ids (tbl : List ChunkRow) (tenant_id : String)
    (chunk_ids : List String) : List ChunkRow :=
  if chunk_ids.isEmpty then []
  else tbl.filter fun c => c.tenant_id == tenant_id &&
    chunk_ids.contains c.chunk_id

/-- The unique-index predicate of `reindex_queue_unique`. -/
def reindexKeyMatches (t d reason : String) (row : ReindexRow) : Bool :=
  row.tenant_id == t && row.document_id == d && row.reason == reason

/-- Model of `MetadataRepository.enqueue_reindex`: insert a `pending` item, or on
conflict by `(tenant_id, document_id, reason)` update only `status`,
`last_error` and `updated_at`. -/
def enqueue_reindex (q : List ReindexRow) (tenant_id document_id : String)
    (reason : String) (priority : Int) (now : Int) (nextId : Int) :
    List ReindexRow :=
  if q.any (reindexKeyMatches tenant_id document_id reason) then
    q.map fun row =>
      if reindexKeyMatches tenant_id document_id reason row then
        { row with status := "pending", last_error := none, updated_at := now }
      else row
  else
    q ++ [{ id := nextId
            tenant_id := tenant_id
            document_id := document_id
            reason := reason
            priority := priority
            status := "pending"
            attempts := 0
            last_error := none
            created_at := now
            updated_at := now
            processed_at := none }]

/-- The staleness test of `find_drift_candidates`: `last_indexed_at IS NULL
OR last_indexed_at < NOW() - stale_after_days` (the interval measured in the
same units as the modelled timestamps). -/
def staleCheck (last_indexed_at : Option Int)
    (stale_after_days now : Int) : Bool :=
  match last_indexed_at with
  | none => true
  | some ts => ts < now - stale_after_days

/-- The `(%(tenant_id)s IS NULL OR x.tenant_id = %(tenant_id)s)` filter. -/
def tenantFilterOk (tenant_id : Option String) (rowTenant : String) : Bool :=
  match tenant_id with
  | none => true
  | some t => rowTenant == t

/-- The `WHERE` disjunction of `find_drift_candidates` (everything after the
status and tenant filters): `IS DISTINCT FROM` on nullable columns is plain
disequality on `Option`, and the `EXISTS` subquery scans the `chunks`
table. -/
def driftCondition (chunks : List ChunkRow) (target_schema_version : String)
    (target_embedding_model : String) (stale_after_days : Int) (now : Int)
    (d : DocumentRow) : Bool :=
  d.last_schema_version != some target_schema_version ||
  d.last_embedding_model != some target_embedding_model ||
  staleCheck d.last_indexed_at stale_after_days now ||
  chunks.any fun c =>
    c.document_id == d.document_id && c.tenant_id == d.tenant_id &&
      (c.schema_version != target_schema_version ||
       c.embedding_model != target_embedding_model)

/-- Model of `MetadataRepository.find_drift_candidates`: documents with
`status IN ('completed', 'processing')`, matching the optional tenant filter,
satisfying `driftCondition`, ordered by `updated_at DESC` and limited.
`SELECT DISTINCT` is a no-op because rows are keyed by `document_id`. -/
def find_drift_candidates (docs : List DocumentRow) (chunks : List ChunkRow)
    (target_schema_version target_embedding_model : String)
    (stale_after_days : Int) (limit : Nat) (tenant_id : Option String)
    (now : Int) : List DocumentRow :=
  let eligible := docs.filter fun d =>
    (d.status == "completed" || d.status == "processing") &&
    tenantFilterOk tenant_id d.tenant_id &&
    driftCondition chunks target_schema_version target_embedding_model
      stale_after_days now d
  (sortByDesc (fun d => d.updated_at) eligible).take limit

end MetadataRepository

namespace PineconeVectorStore

/-- Pinecone upsert of a single vector: within its namespace an existing id
is overwritten in place, a new id is appended. -/
def upsertVector (store : List VectorEntry) (v : VectorEntry) :
    List VectorEntry :=
  if store.any (fun e => e.ns == v.ns && e.id == v.id) then
    store.map fun e => if e.ns == v.ns && e.id == v.id then v else e
  else store ++ [v]

/-- The vector record built for one chunk in `upsert_embeddings`: id is the
chunk id, metadata is `{**chunk.metadata, "document_id": ..., "tenant_id":
...}`, and the write goes to `namespace=tenant_id`. -/
def vectorOf (tenant_id document_id : String) (chunk : ChunkEmbedding) :
    VectorEntry :=
  { ns := tenant_id
    id := chunk.chunk_id
    values := chunk.embedding
    metadata := dictInsert "tenant_id" tenant_id
      (dictInsert "document_id" document_id chunk.metadata) }

/-- Model of `PineconeVectorStore.upsert_embeddings`: build one vector per chunk and
upsert them all into namespace `tenant_id`, returning the count (an empty
batch returns `0` without a write). -/
def upsert_embeddings (store : List VectorEntry)
    (tenant_id document_id : String) (embeddings : List ChunkEmbedding) :
    List VectorEntry × Nat :=
  let vectors := embeddings.map (vectorOf tenant_id document_id)
  if vectors.isEmpty then (store, 0)
  else (vectors.foldl upsertVector store, vectors.length)

/-- A dense hit as returned by `dense_search` (`chunk_id`, `score`,
`metadata`). -/
structure DenseHit where
  chunk_id : String
  score : Option ℚ
  metadata : List (String × String)
deriving DecidableEq, Repr

/-- Model of `PineconeVectorStore.dense_search`: a cosine top-k query within namespace
`tenant_id` (similarity function `sim` is a parameter), mapped to result
dictionaries. -/
def dense_search (store : List VectorEntry)
    (sim : List ℚ → List ℚ → ℚ) (tenant_id : String) (vector : List ℚ)
    (top_k : Nat) : List DenseHit :=
  let inNs := store.filter fun e => e.ns == tenant_id
  ((sortByDesc (fun e => sim vector e.values) inNs).take top_k).map fun e =>
    { chunk_id := e.id, score := some (sim vector e.values),
      metadata := e.metadata }

/-- Number of vectors stored under a namespace. -/
def nsSize (store : List VectorEntry) (tenant_id : String) : Nat :=
  (store.filter fun e => e.ns == tenant_id).length

end PineconeVectorStore

/-! ## Retrieval engine (`retrieval_engine.py`) -/

/-- Python's `str.strip()`: drop leading and trailing whitespace (an
executable model of the normalization `query.strip()`). -/
def pyStrip (s : String) : String :=
  ⟨((s.data.dropWhile Char.isWhitespace).reverse.dropWhile
      Char.isWhitespace).reverse⟩

/-- A JSON-ish metadata value on a retrieval candidate: chunk metadata values
are strings, and the reranker adds a numeric or null `rerank_score`. -/
inductive MetaV where
  | str (s : String)
  | num (q : ℚ)
  | null
deriving DecidableEq, Repr

/-- The `Candidate` dataclass of the hybrid retriever. -/
structure Candidate where
  chunk_id : String
  document_id : String
  content : String
  source_uri : Option String
  page_number : Option Int
  dense_score : Option ℚ := none
  lexical_score : Option ℚ := none
  metadata : List (String × MetaV) := []
deriving DecidableEq, Repr

/-- Lift a chunk row's string-valued metadata into candidate metadata. -/
def liftMeta (m : List (String × String)) : List (String × MetaV) :=
  m.map fun kv => (kv.1, MetaV.str kv.2)

/-- Python dict merge `{**base, **extra}`: each key of `extra` written over
`base` in order. -/
def metaMerge (base extra : List (String × MetaV)) : List (String × MetaV) :=
  extra.foldl (fun m kv => dictInsert kv.1 kv.2 m) base

namespace HybridRetriever

/-- The inner `normalize` of `_blend` combined with the `.get(v, 0.0)`
lookup: a score present in the stream is min-max normalized (all `1.0` when
`max == min`), a score outside the stream — which includes the empty-stream
case — gets the `0.0` default. -/
def normalize (values : List ℚ) (v : ℚ) : ℚ :=
  if values.contains v then
    match values with
    | [] => 0
    | x :: xs =>
      let high := xs.foldl max x
      let low := xs.foldl min x
      if high = low then 1 else (v - low) / (high - low)
  else 0

/-- The blended score of one candidate given the two score streams of the
merged set: `0.5 * dense_norm + 0.5 * lexical_norm`, a missing side
contributing `0.0`. -/
def blendedScore (denseVals lexVals : List ℚ) (c : Candidate) : ℚ :=
  let dense_component := match c.dense_score with
    | some v => normalize denseVals v
    | none => 0
  let lexical_component := match c.lexical_score with
    | some v => normalize lexVals v
    | none => 0
  (1 / 2 : ℚ) * dense_component + (1 / 2 : ℚ) * lexical_component

/-- Model of `HybridRetriever._blend`: empty input short-circuits; otherwise each
candidate is paired with its blended score and the pairs are sorted by score
descending with Python's stable `sorted`. -/
def blend (candidates : List Candidate) : List Candidate :=
  if candidates.isEmpty then []
  else
    let denseVals := candidates.filterMap fun c => c.dense_score
    let lexVals := candidates.filterMap fun c => c.lexical_score
    sortByDesc (blendedScore denseVals lexVals) candidates

/-- Observable outcome of the reranker's provider call: either the
`chat.completions.create` call (or the float conversions after it) raised —
timeouts included — or it returned content whose tolerant parse produced the
given `{chunk_id: score}` map (invalid JSON parses to `{}`, hence `[]`). -/
inductive RerankOutcome where
  | raised
  | replied (score_map : List (String × ℚ))
deriving DecidableEq, Repr

/-- Model of `OpenAIReranker.rerank`: keep the first `max(2 * top_k, top_k)`
candidates; on a raised provider call return them truncated to `top_k`
unchanged; on a reply sort them by mapped score (missing ids sort as `0`),
attach `rerank_score` (`null` for ids missing from the reply), and truncate
to `top_k`. -/
def rerank (outcome : RerankOutcome) (candidates : List Candidate)
    (top_k : Nat) : List Candidate :=
  if candidates.isEmpty then []
  else
    let limited := candidates.take (max (top_k * 2) top_k)
    match outcome with
    | .raised => limited.take top_k
    | .replied score_map =>
      let ranked := sortByDesc
        (fun c => (score_map.lookup c.chunk_id).getD 0) limited
      (ranked.map fun c =>
        let rsVal : MetaV := match score_map.lookup c.chunk_id with
          | some q => MetaV.num q
          | none => MetaV.null
        { c with metadata := dictInsert "rerank_score" rsVal c.metadata }).take
        top_k

/-- Retrieval configuration knobs read from `settings.retrieval`. -/
structure RetrievalConfig where
  dense_top_n : Nat
  bm25_top_m : Nat
  rerank_top_k : Nat
  tsvector_config : String

/-- External collaborators of the retriever: the query embedder and the
opaque database/vector-store scoring functions. -/
structure RetrievalEnv where
  embed : String → List ℚ
  sim : List ℚ → List ℚ → ℚ
  plainToTsquery : String → String → List String
  tsMatch : List String → List String → Bool
  rankOf : List String → List String → ℚ

/-- The diagnostics block of the retrieval response. -/
structure Diagnostics where
  dense_retrieved : Nat
  lexical_retrieved : Nat
  merged_candidates : Nat
  returned : Nat
deriving DecidableEq, Repr

/-- The retrieval response. -/
structure RetrieveResponse where
  query : String
  tenant_id : String
  results : List Candidate
  diagnostics : Diagnostics
deriving DecidableEq, Repr

/-- How many times `retrieve` invoked each external search dependency. -/
structure CallCounts where
  embed_calls : Nat
  dense_search_calls : Nat
  search_lexical_calls : Nat
deriving DecidableEq, Repr

/-- The candidate seeded from one lexical hit. -/
def lexicalCandidate (row : ChunkRow) (rank : ℚ) : Candidate :=
  { chunk_id := row.chunk_id
    document_id := row.document_id
    content := row.content
    source_uri := row.source_uri
    page_number := row.page_number
    lexical_score := some rank
    dense_score := none
    metadata := liftMeta row.metadata }

/-- Model of `HybridRetriever.retrieve`, with the persisted state and the reranker
outcome passed explicitly. It trims the query, embeds it, performs one dense
and one lexical search (there is no empty-query short-circuit in the source),
hydrates dense hits through `fetch_chunks_by_ids` dropping ids unknown to the
metadata store, merges into an insertion-ordered candidate map seeded from
the lexical hits, blends, reranks, and reports stage counts. -/
def retrieve (env : RetrievalEnv) (cfg : RetrievalConfig)
    (chunksTbl : List ChunkRow) (vectors : List VectorEntry)
    (outcome : RerankOutcome) (tenant_id query : String) :
    RetrieveResponse × CallCounts :=
  let normalized := pyStrip query
  let dense_vector := env.embed normalized
  let dense_hits := PineconeVectorStore.dense_search vectors env.sim
    tenant_id dense_vector cfg.dense_top_n
  let lexical_hits := MetadataRepository.search_lexical chunksTbl
    env.plainToTsquery env.tsMatch env.rankOf tenant_id normalized
    cfg.bm25_top_m cfg.tsvector_config
  let dense_chunk_ids := dense_hits.filterMap fun h =>
    if h.chunk_id ≠ "" then some h.chunk_id else none
  let known_chunks := MetadataRepository.fetch_chunks_by_ids chunksTbl
    tenant_id dense_chunk_ids
  let seeded : List (String × Candidate) := lexical_hits.foldl
    (fun m p => dictInsert p.1.chunk_id (lexicalCandidate p.1 p.2) m) []
  let candidates := dense_hits.foldl
    (fun m h =>
      if h.chunk_id = "" then m
      else
        match known_chunks.find? (fun row => row.chunk_id == h.chunk_id) with
        | none => m
        | some row =>
          let existing := (m.lookup h.chunk_id)
          dictInsert h.chunk_id
            { chunk_id := h.chunk_id
              document_id := row.document_id
              content := row.content
              source_uri := row.source_uri
              page_number := row.page_number
              dense_score := h.score
              lexical_score := match existing with
                | some e => e.lexical_score
                | none => none
              metadata := metaMerge (liftMeta row.metadata)
                (match existing with
                 | some e => e.metadata
                 | none => []) } m)
    seeded
  let merged := candidates.map fun kv => kv.2
  let blended_sorted := blend merged
  let reranked := rerank outcome blended_sorted cfg.rerank_top_k
  (⟨normalized, tenant_id, reranked,
    { dense_retrieved := dense_hits.length
      lexical_retrieved := lexical_hits.length
      merged_candidates := merged.length
      returned := reranked.length }⟩,
   { embed_calls := 1, dense_search_calls := 1, search_lexical_calls := 1 })

end HybridRetriever

/-! ## Ingestion worker (`pubsub_runner.py`) -/

/-- The persisted state the worker writes to: the two Postgres tables and the
Pinecone index. -/
structure StoreState where
  documents : List DocumentRow
  chunks : List ChunkRow
  vectors : List VectorEntry
deriving Repr

namespace PubSubIngestionWorker

/-- The `IngestionJob` dataclass (scalar payload fields are passed through
`str(...)`). -/
structure IngestionJob where
  request_id : String
  tenant_id : String
  document_id : String
  filename : String
  gcs_uri : String
  content_type : String
  submitted_at : String
  chunk_config : List (String × Int)
  attributes : List (String × String)
deriving DecidableEq, Repr

/-- A decoded message payload: the scalar fields that may be present (keyed
map, `str(...)` applied to values), plus the optional `chunk_config` and
`attributes` sub-objects. -/
structure RawPayload where
  fields : List (String × String)
  chunk_config : List (String × Int)
  attributes : List (String × String)
deriving DecidableEq, Repr

/-- The required-field list of `_parse_job_object`. -/
def requiredFields : List String :=
  ["request_id", "tenant_id", "document_id", "filename", "gcs_uri",
   "content_type", "submitted_at"]

/-- Model of `PubSubIngestionWorker._parse_job_object`: raise `PermanentIngestionError`
(modelled as `Except.error`) when any required key is missing from the
payload, otherwise build the job. -/
def parse_job_object (p : RawPayload) : Except Unit IngestionJob :=
  if requiredFields.all (fun f => (p.fields.map Prod.fst).contains f) then
    .ok { request_id := (p.fields.lookup "request_id").getD ""
          tenant_id := (p.fields.lookup "tenant_id").getD ""
          document_id := (p.fields.lookup "document_id").getD ""
          filename := (p.fields.lookup "filename").getD ""
          gcs_uri := (p.fields.lookup "gcs_uri").getD ""
          content_type := (p.fields.lookup "content_type").getD ""
          submitted_at := (p.fields.lookup "submitted_at").getD ""
          chunk_config := p.chunk_config
          attributes := p.attributes }
  else .error ()

/-- What `process_job` did with a successfully parsed job: completed, raised
`PermanentIngestionError` (invalid URI scheme, blob not found), or raised any
other exception (transient). The internal writes of a successful
`process_job` are modelled separately by `process_job` below. -/
inductive ProcessOutcome where
  | success
  | permanentFailure
  | transientFailure (err : String)
deriving DecidableEq, Repr

/-- The externally observable result of `_handle_message`: whether the
message was acked or nacked, and the `documents` table after any
error-branch status write. -/
structure HandleResult where
  acked : Bool
  nacked : Bool
  documents : List DocumentRow
deriving Repr

/-- The `status='failed'` document upsert issued by the error branches of
`_handle_message`. -/
def failedWrite (job : IngestionJob) (err : String) :
    MetadataRepository.DocUpsertParams :=
  { document_id := job.document_id
    tenant_id := job.tenant_id
    filename := job.filename
    gcs_uri := job.gcs_uri
    status := "failed"
    last_error := some err }

/-- Model of `PubSubIngestionWorker._handle_message`: `job` starts as `None` and is
assigned by `_parse_job`. A `PermanentIngestionError` acks; the document is
marked `failed` only `if job` — so a parse-stage failure (missing required
fields) acks without any document write. Other exceptions mark the document
`failed` (again only when `job` was assigned) and nack. -/
def handle_message (docs : List DocumentRow) (p : RawPayload)
    (outcome : ProcessOutcome) (now : Int) : HandleResult :=
  match parse_job_object p with
  | .error _ => { acked := true, nacked := false, documents := docs }
  | .ok job =>
    match outcome with
    | .success => { acked := true, nacked := false, documents := docs }
    | .permanentFailure =>
      { acked := true
        nacked := false
        documents := MetadataRepository.upsert_document docs
          (failedWrite job "permanent_error") now }
    | .transientFailure err =>
      { acked := false
        nacked := true
        documents := MetadataRepository.upsert_document docs
          (failedWrite job err) now }

/-- Model of `PubSubIngestionWorker.process_job` on the happy path, with the blob
download and `PDFEmbeddingPipeline.process` output abstracted as
`chunkEmbeddings` (the pipeline assigns a fresh `uuid4` chunk id per chunk
per run) and the parsed `submitted_at` timestamp as `submittedAtTs`: mark
the document `processing`, upsert the chunk rows, upsert the embeddings, and
mark the document `completed` with `chunk_count = len(chunk_embeddings)`,
`last_indexed_at = now` and the configured schema version and embedding
model. -/
def process_job (st : StoreState) (hash : String → String)
    (tsvectorOf : String → String → List String)
    (embedding_model chunk_schema_version tsvector_config : String)
    (job : IngestionJob) (submittedAtTs : Option Int)
    (chunkEmbeddings : List ChunkEmbedding) (now : Int) : StoreState :=
  let docs1 := MetadataRepository.upsert_document st.documents
    { document_id := job.document_id
      tenant_id := job.tenant_id
      filename := job.filename
      gcs_uri := job.gcs_uri
      status := "processing"
      submitted_at := submittedAtTs } now
  let chunk_count : Nat := chunkEmbeddings.length
  let chunksAfter := (MetadataRepository.upsert_chunks st.chunks hash
    tsvectorOf embedding_model job.tenant_id job.document_id chunkEmbeddings
    chunk_schema_version tsvector_config (some job.gcs_uri) now).1
  let vectorsAfter := (PineconeVectorStore.upsert_embeddings st.vectors
    job.tenant_id job.document_id chunkEmbeddings).1
  let docs2 := MetadataRepository.upsert_document docs1
    { document_id := job.document_id
      tenant_id := job.tenant_id
      filename := job.filename
      gcs_uri := job.gcs_uri
      status := "completed"
      chunk_count := some (chunk_count : Int)
      last_indexed_at := some now
      last_schema_version := some chunk_schema_version
      last_embedding_model := some embedding_model } now
  { documents := docs2, chunks := chunksAfter, vectors := vectorsAfter }

end PubSubIngestionWorker

/-! ## Specification-side definitions for the score-blending claim -/

/-- Min-max normalization as worded in the spec:
`norm(x) = (x - min)/(max - min)`, all contributors `1.0` when
`max == min`, `0` for a missing contribution. -/
def specNorm (vals : List ℚ) : Option ℚ → ℚ
  | none => 0
  | some v =>
    match vals.max?, vals.min? with
    | some hi, some lo => if hi = lo then 1 else (v - lo) / (hi - lo)
    | _, _ => 0

/-- The spec's blended score of a candidate across the merged set:
`0.5 * dense_norm + 0.5 * lexical_norm`. -/
def specBlendScore (cs : List Candidate) (c : Candidate) : ℚ :=
  (1 / 2 : ℚ) * specNorm (cs.filterMap fun x => x.dense_score)
      c.dense_score +
    (1 / 2 : ℚ) * specNorm (cs.filterMap fun x => x.lexical_score)
      c.lexical_score

/-- Lexicographic comparison of code-point lists (Python `<` on `str`). -/
def strLexLt : List Char → List Char → Bool
  | [], [] => false
  | [], _ :: _ => true
  | _ :: _, [] => false
  | a :: as, b :: bs =>
    if a < b then true else if b < a then false else strLexLt as bs

/-- Whether `a` must precede `b` under the ordering the claim asserts:
descending blended score, ties broken by `chunk_id` lexicographic order. -/
def claimPrecedes (score : Candidate → ℚ) (a b : Candidate) : Bool :=
  decide (score b < score a) ||
    (decide (score a = score b) && strLexLt a.chunk_id.data b.chunk_id.data)

/-- Insertion sort by an arbitrary precedence test. -/
def insertByCmp {α : Type} (cmp : α → α → Bool) (x : α) : List α → List α
  | [] => [x]
  | y :: ys => if cmp x y then x :: y :: ys else y :: insertByCmp cmp x ys

/-- Sort by an arbitrary precedence test. -/
def sortByCmp {α : Type} (cmp : α → α → Bool) : List α → List α
  | [] => []
  | x :: xs => insertByCmp cmp x (sortByCmp cmp xs)

/-- The candidate ordering the claim asserts `_blend` produces: a second
definition following the spec's words, to be compared with
`HybridRetriever.blend`. -/
def blendSpecClaim (cs : List Candidate) : List Candidate :=
  sortByCmp (claimPrecedes (specBlendScore cs)) cs

/-- A lexical-only candidate with `chunk_id` `b` and rank `2`. -/
def c6candB : Candidate :=
  { chunk_id := "b", document_id := "d", content := "x",
    source_uri := none, page_number := none, lexical_score := some 2 }

/-- The same candidate with `chunk_id` `a`. -/
def c6candA : Candidate :=
  { c6candB with chunk_id := "a" }

/-- A chunk row backing the vector hit in the C2 scenario. -/
def c2chunk : ChunkRow :=
  { chunk_id := "v1", tenant_id := "t", document_id := "d1",
    chunk_index := 0, content := "hello", chunk_hash := "h",
    schema_version := "s", embedding_model := "e", source_uri := none,
    page_number := none, metadata := [], tsv := ["hello"],
    created_at := 1, updated_at := 1 }

/-- A single-vector store under namespace `t` for the C2 scenario. -/
def c2vectors : List VectorEntry :=
  [{ ns := "t", id := "v1", values := [1], metadata := [] }]

/-- A retrieval environment whose dense side always scores `1` and whose
lexical side never matches. -/
def c2env : HybridRetriever.RetrievalEnv :=
  { embed := fun _ => [1], sim := fun _ _ => 1,
    plainToTsquery := fun _ _ => [], tsMatch := fun _ _ => false,
    rankOf := fun _ _ => 0 }

/-- A retrieval configuration with small limits. -/
def c2cfg : HybridRetriever.RetrievalConfig :=
  { dense_top_n := 20, bm25_top_m := 20, rerank_top_k := 8,
    tsvector_config := "english" }

/-- The unique-index key of a chunk row. -/
def chunkKeyOf (r : ChunkRow) : String × String := (r.tenant_id, r.chunk_hash)

/-- Whether a vector id is present under a namespace. -/
def hasVec (store : List VectorEntry) (t i : String) : Bool :=
  store.any fun e => e.ns == t && e.id == i

/-- The ingestion job shared by the concrete C3/C4 scenarios. -/
def c3job : PubSubIngestionWorker.IngestionJob :=
  { request_id := "r", tenant_id := "t", document_id := "d",
    filename := "f", gcs_uri := "gs://b/k",
    content_type := "application/pdf", submitted_at := "s",
    chunk_config := [], attributes := [] }

/-- An empty persisted state. -/
def emptyState : StoreState := { documents := [], chunks := [], vectors := [] }

/-- A stand-in content hash for concrete runs (any function works: the upsert
logic only compares hash values for equality). -/
def idHash : String → String := fun s => s

/-- A trivial `to_tsvector` for concrete runs. -/
def noTsv : String → String → List String := fun _ _ => []

/-- First delivery's pipeline output: one chunk with a fresh id. -/
def c3e1 : List ChunkEmbedding :=
  [{ chunk_id := "id1", text := "hello", embedding := [1], metadata := [] }]

/-- Second delivery of the same document: same text, fresh `uuid4` id. -/
def c3e2 : List ChunkEmbedding :=
  [{ chunk_id := "id2", text := "hello", embedding := [1], metadata := [] }]

/-- A pipeline output with two chunks of identical text (and hence equal
content hashes) for the C4 counterexample. -/
def c4dup : List ChunkEmbedding :=
  [{ chunk_id := "a", text := "x", embedding := [1], metadata := [] },
   { chunk_id := "b", text := "x", embedding := [1], metadata := [] }]

/-- A pipeline output with two distinct-text chunks for the C4 witness. -/
def c4distinct : List ChunkEmbedding :=
  [{ chunk_id := "a", text := "x", embedding := [1], metadata := [] },
   { chunk_id := "b", text := "y", embedding := [1], metadata := [] }]

/-- State after the first delivery of the C3 scenario. -/
def c3st1 : StoreState :=
  PubSubIngestionWorker.process_job emptyState idHash noTsv "e" "sv"
    "english" c3job none c3e1 1

/-- State after the duplicate (second) delivery of the C3 scenario. -/
def c3st2 : StoreState :=
  PubSubIngestionWorker.process_job c3st1 idHash noTsv "e" "sv" "english"
    c3job none c3e2 2

/-- State after ingesting the duplicate-text document of the C4
counterexample. -/
def c4st : StoreState :=
  PubSubIngestionWorker.process_job emptyState idHash noTsv "e" "sv"
    "english" c3job none c4dup 1

/-- State after ingesting the distinct-text document of the C4 witness. -/
def c4wit : StoreState :=
  PubSubIngestionWorker.process_job emptyState idHash noTsv "e" "sv"
    "english" c3job none c4distinct 1

/-- A concrete pre-existing reindex queue row used by the C10 witness. -/
def c10row : ReindexRow :=
  { id := 1, tenant_id := "t1", document_id := "d1", reason := "drift",
    priority := 9, status := "failed", attempts := 2,
    last_error := some "x", created_at := 10, updated_at := 20,
    processed_at := none }

/-! ## C5 — `upsert_document` COALESCE semantics -/

/-- A stored document row with populated `chunk_count` and `last_error`,
used for the C5 counterexample and witness. -/
def c5doc : DocumentRow :=
  { document_id := "d1", tenant_id := "t1", filename := "f.pdf",
    gcs_uri := "gs://b/k", status := "completed", chunk_count := some 5,
    last_error := some "boom", submitted_at := some 1, updated_at := 2,
    last_indexed_at := some 3, last_schema_version := some "s",
    last_embedding_model := some "e", reindex_attempts := some 0 }

/-- A partial update marking the document `processing`, with `chunk_count`
and `last_error` left at their `None` defaults. -/
def c5params : MetadataRepository.DocUpsertParams :=
  { document_id := "d1", tenant_id := "t1", filename := "f.pdf",
    gcs_uri := "gs://b/k", status := "processing" }

/-! ## C8 — missing required fields: ack without a `failed` status write -/

/-- A payload whose `filename` is missing but whose other required fields —
`document_id` included — are present. -/
def c8payload : PubSubIngestionWorker.RawPayload :=
  { fields := [("request_id", "r1"), ("tenant_id", "t1"),
      ("document_id", "d1"), ("gcs_uri", "gs://b/k"),
      ("content_type", "application/pdf"), ("submitted_at", "2025-01-01")],
    chunk_config := [], attributes := [] }

/-- The referenced document as it sits in the table before the message. -/
def c8doc : DocumentRow :=
  { document_id := "d1", tenant_id := "t1", filename := "f.pdf",
    gcs_uri := "gs://b/k", status := "pending", chunk_count := none,
    last_error := none, submitted_at := some 1, updated_at := 2,
    last_indexed_at := none, last_schema_version := none,
    last_embedding_model := none, reindex_attempts := none }

/-- A concrete chunk row of tenant `t` for the C1 witness. -/
def c1chunk : ChunkRow :=
  { chunk_id := "c1", tenant_id := "t", document_id := "d1",
    chunk_index := 0, content := "hello world", chunk_hash := "h1",
    schema_version := "s", embedding_model := "e", source_uri := none,
    page_number := none, metadata := [], tsv := ["hello", "world"],
    created_at := 1, updated_at := 1 }

/-- A concrete single-vector Pinecone store under namespace `t`. -/
def c1store : List VectorEntry :=
  [{ ns := "t", id := "v1", values := [1], metadata := [] }]

/-- A constant similarity function for the C1 witness. -/
def c1sim : List ℚ → List ℚ → ℚ := fun _ _ => 1

/-- An always-true `@@` match for the C1 witness. -/
def c1tm : List String → List String → Bool := fun _ _ => true

/-- A constant rank function for the C1 witness. -/
def c1rk : List String → List String → ℚ := fun _ _ => 1

/-- A trivial `plainto_tsquery` for the C1 witness. -/
def c1pq : String → String → List String := fun _ _ => []

/-- The dense hit produced by querying `c1store`. -/
def c1hit : PineconeVectorStore.DenseHit :=
  { chunk_id := "v1", score := some 1, metadata := [] }

/-- A drifting document whose status is `failed`. -/
def c9failedDoc : DocumentRow :=
  { document_id := "d9", tenant_id := "t", filename := "f", gcs_uri := "g",
    status := "failed", chunk_count := none, last_error := some "x",
    submitted_at := none, updated_at := 50, last_indexed_at := none,
    last_schema_version := some "old", last_embedding_model := some "e",
    reindex_attempts := none }

/-- The same document with status `completed`. -/
def c9okDoc : DocumentRow :=
  { c9failedDoc with document_id := "d10", status := "completed" }

/-- A bare candidate for the C7 counterexample. -/
def c7cand : Candidate :=
  { chunk_id := "c", document_id := "d", content := "x",
    source_uri := none, page_number := none }

/-! # Theorems -/
theorem mem_insertTopBy {α κ : Type} [LinearOrder κ] (key : α → κ) (x : α)
    (l : List α) (a : α) : a ∈ insertTopBy key x l ↔ a = x ∨ a ∈ l := by
  induction l with
  | nil => simp [insertTopBy]
  | cons y ys ih =>
    simp only [insertTopBy]
    by_cases h : key x < key y
    · rw [if_pos h]
      simp only [List.mem_cons, ih]
      try tauto
    · rw [if_neg h]
      simp only [List.mem_cons]
      try tauto

theorem insertTopBy_perm {α κ : Type} [LinearOrder κ] (key : α → κ) (x : α)
    (l : List α) : (insertTopBy key x l).Perm (x :: l) := by
  induction l with
  | nil => simp [insertTopBy]
  | cons y ys ih =>
    simp only [insertTopBy]
    by_cases h : key x < key y
    · simp only [h, if_pos]
      exact (ih.cons y).trans (List.Perm.swap x y ys)
    · simp [h]

theorem sortByDesc_perm {α κ : Type} [LinearOrder κ] (key : α → κ)
    (l : List α) : (sortByDesc key l).Perm l := by
  induction l with
  | nil => simp [sortByDesc]
  | cons x xs ih =>
    exact (insertTopBy_perm key x (sortByDesc key xs)).trans (ih.cons x)

theorem mem_sortByDesc {α κ : Type} [LinearOrder κ] (key : α → κ)
    (l : List α) (a : α) : a ∈ sortByDesc key l ↔ a ∈ l :=
  (sortByDesc_perm key l).mem_iff

theorem pairwise_insertTopBy {α κ : Type} [LinearOrder κ] (key : α → κ)
    (x : α) (l : List α) (h : l.Pairwise (fun a b => key b ≤ key a)) :
    (insertTopBy key x l).Pairwise (fun a b => key b ≤ key a) := by
  induction l with
  | nil => simp [insertTopBy]
  | cons y ys ih =>
    rcases List.pairwise_cons.mp h with ⟨hy, hys⟩
    simp only [insertTopBy]
    by_cases hxy : key x < key y
    · simp only [hxy, if_pos]
      refine List.pairwise_cons.mpr ⟨?_, ih hys⟩
      intro b hb
      rcases (mem_insertTopBy key x ys b).mp hb with rfl | hb
      · exact le_of_lt hxy
      · exact hy b hb
    · simp only [hxy, if_neg]
      refine List.pairwise_cons.mpr ⟨?_, h⟩
      intro b hb
      rcases List.mem_cons.mp hb with rfl | hb
      · exact le_of_not_lt hxy
      · exact le_trans (hy b hb) (le_of_not_lt hxy)

theorem pairwise_sortByDesc {α κ : Type} [LinearOrder κ] (key : α → κ)
    (l : List α) :
    (sortByDesc key l).Pairwise (fun a b => key b ≤ key a) := by
  induction l with
  | nil => simp [sortByDesc]
  | cons x xs ih => exact pairwise_insertTopBy key x _ ih

theorem insertTopBy_of_ge {α κ : Type} [LinearOrder κ] (key : α → κ)
    (x : α) (l : List α) (h : ∀ b ∈ l, key b ≤ key x) :
    insertTopBy key x l = x :: l := by
  cases l with
  | nil => rfl
  | cons y ys =>
    have : ¬ key x < key y := not_lt_of_le (h y (List.mem_cons_self y ys))
    simp [insertTopBy, this]

/-- A list already sorted in descending key order is left unchanged; in
particular a stable sort over all-equal keys is the identity. -/
theorem sortByDesc_of_sorted {α κ : Type} [LinearOrder κ] (key : α → κ)
    (l : List α) (h : l.Pairwise (fun a b => key b ≤ key a)) :
    sortByDesc key l = l := by
  induction l with
  | nil => rfl
  | cons x xs ih =>
    rcases List.pairwise_cons.mp h with ⟨hx, hxs⟩
    simp only [sortByDesc]
    rw [ih hxs]
    exact insertTopBy_of_ge key x xs hx

theorem length_sortByDesc {α κ : Type} [LinearOrder κ] (key : α → κ)
    (l : List α) : (sortByDesc key l).length = l.length :=
  (sortByDesc_perm key l).length_eq

/-! ## Shared lemmas about conditional in-place list updates -/

/-- Updating every row satisfying `pred` with a `pred`-preserving transform
commutes with `find?`. -/
theorem find?_map_update {α : Type} (pred : α → Bool) (u : α → α)
    (hu : ∀ a, pred a = true → pred (u a) = true) (l : List α) :
    (l.map fun r => if pred r then u r else r).find? pred =
      (l.find? pred).map u := by
  induction l with
  | nil => simp
  | cons a l ih =>
    by_cases ha : pred a = true
    · rw [List.map_cons, if_pos ha, List.find?_cons_of_pos _ (hu a ha),
        List.find?_cons_of_pos _ ha]
      rfl
    · rw [List.map_cons, if_neg ha, List.find?_cons_of_neg _ ha,
        List.find?_cons_of_neg _ ha]
      exact ih

theorem any_of_find?_eq_some {α : Type} {pred : α → Bool} {l : List α}
    {a : α} (h : l.find? pred = some a) : l.any pred = true :=
  List.any_eq_true.mpr ⟨a, List.mem_of_find?_eq_some h, List.find?_some h⟩

/-! ## C10 — `enqueue_reindex` leaves `priority` and `attempts` unchanged -/

/-- C10: re-enqueueing an existing `(tenant_id, document_id, reason)` leaves
the stored `priority`, `attempts`, `id`, `created_at` and `processed_at`
unchanged and writes only `status = 'pending'`, `last_error = NULL` and
`updated_at = NOW()`; no new row is created. In particular re-enqueueing
with a different `priority` argument does not change the stored priority. -/
theorem enqueue_reindex_frame (q : List ReindexRow)
    (t d reason : String) (priority now nextId : Int) (old : ReindexRow)
    (hfound : q.find? (MetadataRepository.reindexKeyMatches t d reason) =
      some old) :
    (MetadataRepository.enqueue_reindex q t d reason priority now
        nextId).length = q.length ∧
    ∃ r, (MetadataRepository.enqueue_reindex q t d reason priority now
        nextId).find? (MetadataRepository.reindexKeyMatches t d reason) =
        some r ∧
      r.priority = old.priority ∧ r.attempts = old.attempts ∧
      r.id = old.id ∧ r.created_at = old.created_at ∧
      r.processed_at = old.processed_at ∧
      r.tenant_id = old.tenant_id ∧ r.document_id = old.document_id ∧
      r.reason = old.reason ∧
      r.status = "pending" ∧ r.last_error = none ∧ r.updated_at = now := by
  have hany := any_of_find?_eq_some hfound
  unfold MetadataRepository.enqueue_reindex
  rw [if_pos hany]
  refine ⟨by simp, ?_⟩
  refine ⟨{ old with
              status := "pending", last_error := none, updated_at := now },
    ?_, rfl, rfl, rfl, rfl, rfl, rfl, rfl, rfl, rfl, rfl, rfl⟩
  have h2 := find?_map_update
    (MetadataRepository.reindexKeyMatches t d reason)
    (fun row => { row with
                    status := "pending", last_error := none,
                    updated_at := now })
    (fun row h => h) q
  rw [hfound] at h2
  exact h2

/-- Witness for C10: the pre-existing item keeps `priority = 9` and
`attempts = 2` although the re-enqueue passes `priority = 5`. -/
theorem enqueue_reindex_frame_witness :
    (MetadataRepository.enqueue_reindex [c10row] "t1" "d1" "drift" 5 30
        7).length = [c10row].length ∧
    ∃ r, (MetadataRepository.enqueue_reindex [c10row] "t1" "d1" "drift" 5 30
        7).find? (MetadataRepository.reindexKeyMatches "t1" "d1" "drift") =
        some r ∧
      r.priority = c10row.priority ∧ r.attempts = c10row.attempts ∧
      r.id = c10row.id ∧ r.created_at = c10row.created_at ∧
      r.processed_at = c10row.processed_at ∧
      r.tenant_id = c10row.tenant_id ∧ r.document_id = c10row.document_id ∧
      r.reason = c10row.reason ∧
      r.status = "pending" ∧ r.last_error = none ∧ r.updated_at = 30 :=
  enqueue_reindex_frame [c10row] "t1" "d1" "drift" 5 30 7 c10row (by decide)

/-- C5 counterexample: `chunk_count` and `last_error` do NOT follow COALESCE
semantics — marking an existing document `processing` with both arguments at
their `None` defaults overwrites the stored `chunk_count = 5` and
`last_error` with `NULL`, because the `DO UPDATE` clause sets them to the
excluded values directly. -/
theorem upsert_document_overwrites_counterexample :
    c5doc.chunk_count = some 5 ∧ c5doc.last_error = some "boom" ∧
    MetadataRepository.upsert_document [c5doc] c5params 9 =
      [{ c5doc with
           status := "processing", chunk_count := none, last_error := none,
           updated_at := 9 }] := by
  decide

/-- C5 as amended: an `upsert_document` on an existing `document_id` keeps
the previously stored values of the four indexing fields (`last_indexed_at`,
`last_schema_version`, `last_embedding_model`, `reindex_attempts`) whenever
they are passed as `None` (COALESCE), and never touches `tenant_id`,
`filename`, `gcs_uri` or `submitted_at`; but `status`, `chunk_count` and
`last_error` are always overwritten with the supplied values, `None`
included. No row is added. -/
theorem upsert_document_coalesce_frame (docs : List DocumentRow)
    (p : MetadataRepository.DocUpsertParams) (now : Int) (old : DocumentRow)
    (hfound : docs.find? (fun r => r.document_id == p.document_id) =
      some old) :
    (MetadataRepository.upsert_document docs p now).length = docs.length ∧
    ∃ r, (MetadataRepository.upsert_document docs p now).find?
        (fun r => r.document_id == p.document_id) = some r ∧
      (p.last_indexed_at = none → r.last_indexed_at = old.last_indexed_at) ∧
      (p.last_schema_version = none →
        r.last_schema_version = old.last_schema_version) ∧
      (p.last_embedding_model = none →
        r.last_embedding_model = old.last_embedding_model) ∧
      (p.reindex_attempts = none →
        r.reindex_attempts = old.reindex_attempts) ∧
      r.status = p.status ∧ r.chunk_count = p.chunk_count ∧
      r.last_error = p.last_error ∧
      r.tenant_id = old.tenant_id ∧ r.filename = old.filename ∧
      r.gcs_uri = old.gcs_uri ∧ r.submitted_at = old.submitted_at ∧
      r.updated_at = now := by
  have hany : docs.any (fun r => r.document_id == p.document_id) = true :=
    any_of_find?_eq_some hfound
  unfold MetadataRepository.upsert_document
  rw [if_pos hany]
  refine ⟨by simp, ?_⟩
  refine ⟨MetadataRepository.applyDocUpdate p now old, ?_, ?_, ?_, ?_, ?_,
    rfl, rfl, rfl, rfl, rfl, rfl, rfl, rfl⟩
  · have h2 := find?_map_update (fun r => r.document_id == p.document_id)
      (MetadataRepository.applyDocUpdate p now) (fun a h => h) docs
    rw [hfound] at h2
    exact h2
  · intro h
    simp [MetadataRepository.applyDocUpdate, h, Option.orElse]
  · intro h
    simp [MetadataRepository.applyDocUpdate, h, Option.orElse]
  · intro h
    simp [MetadataRepository.applyDocUpdate, h, Option.orElse]
  · intro h
    simp [MetadataRepository.applyDocUpdate, h, Option.orElse]

/-- Witness for C5 (amended): the partial `processing` update at the
concrete row `c5doc` preserves the four COALESCE fields and overwrites
`status`, `chunk_count`, `last_error`. -/
theorem upsert_document_coalesce_frame_witness :
    (MetadataRepository.upsert_document [c5doc] c5params 9).length =
      [c5doc].length ∧
    ∃ r, (MetadataRepository.upsert_document [c5doc] c5params 9).find?
        (fun r => r.document_id == c5params.document_id) = some r ∧
      (c5params.last_indexed_at = none →
        r.last_indexed_at = c5doc.last_indexed_at) ∧
      (c5params.last_schema_version = none →
        r.last_schema_version = c5doc.last_schema_version) ∧
      (c5params.last_embedding_model = none →
        r.last_embedding_model = c5doc.last_embedding_model) ∧
      (c5params.reindex_attempts = none →
        r.reindex_attempts = c5doc.reindex_attempts) ∧
      r.status = c5params.status ∧ r.chunk_count = c5params.chunk_count ∧
      r.last_error = c5params.last_error ∧
      r.tenant_id = c5doc.tenant_id ∧ r.filename = c5doc.filename ∧
      r.gcs_uri = c5doc.gcs_uri ∧ r.submitted_at = c5doc.submitted_at ∧
      r.updated_at = 9 :=
  upsert_document_coalesce_frame [c5doc] c5params 9 c5doc (by decide)

/-- C8 counterexample: a message missing the required `filename` field is
acked, but the referenced document is NOT marked `failed` — in
`_handle_message` the `job` variable is still `None` when `_parse_job`
raises, so the `if job:` guard skips the status write and the row keeps
status `pending`. -/
theorem handle_message_missing_field_counterexample :
    (PubSubIngestionWorker.handle_message [c8doc] c8payload
        .success 9).acked = true ∧
    (PubSubIngestionWorker.handle_message [c8doc] c8payload
        .success 9).nacked = false ∧
    (PubSubIngestionWorker.handle_message [c8doc] c8payload
        .success 9).documents = [c8doc] ∧
    c8doc.status = "pending" := by
  decide

/-- C8 as amended: for every payload missing at least one required field the
worker acks the message (never nacks), and performs no document write at all
— the `documents` table is returned unchanged, so no status is set to
`failed`. The `failed` status write happens only for permanent errors raised
after parsing succeeded. -/
theorem handle_message_missing_field (docs : List DocumentRow)
    (p : PubSubIngestionWorker.RawPayload)
    (outcome : PubSubIngestionWorker.ProcessOutcome) (now : Int)
    (hmissing : PubSubIngestionWorker.requiredFields.all
      (fun f => (p.fields.map Prod.fst).contains f) = false) :
    (PubSubIngestionWorker.handle_message docs p outcome now).acked = true ∧
    (PubSubIngestionWorker.handle_message docs p outcome now).nacked =
      false ∧
    (PubSubIngestionWorker.handle_message docs p outcome now).documents =
      docs := by
  have hparse : PubSubIngestionWorker.parse_job_object p = .error () := by
    unfold PubSubIngestionWorker.parse_job_object
    rw [hmissing]
    simp
  unfold PubSubIngestionWorker.handle_message
  rw [hparse]
  exact ⟨rfl, rfl, rfl⟩

/-- Witness for C8 (amended) at the concrete payload with `filename`
missing. -/
theorem handle_message_missing_field_witness :
    (PubSubIngestionWorker.handle_message [c8doc] c8payload
        (.transientFailure "io") 9).acked = true ∧
    (PubSubIngestionWorker.handle_message [c8doc] c8payload
        (.transientFailure "io") 9).nacked = false ∧
    (PubSubIngestionWorker.handle_message [c8doc] c8payload
        (.transientFailure "io") 9).documents = [c8doc] :=
  handle_message_missing_field [c8doc] c8payload (.transientFailure "io") 9
    (by decide)

/-! ## C1 — tenant isolation of search and fetch -/

/-- C1: `search_lexical` and `fetch_chunks_by_ids` only ever return rows
whose `tenant_id` equals the requested tenant, and every hit of
`dense_search` originates from a vector stored under the namespace named
`tenant_id`; no row belonging to a different tenant is returned. -/
theorem tenant_isolation :
    (∀ (tbl : List ChunkRow) (pq : String → String → List String)
       (tm : List String → List String → Bool)
       (rk : List String → List String → ℚ) (t q : String) (limit : Nat)
       (cfg : String) (p : ChunkRow × ℚ),
       p ∈ MetadataRepository.search_lexical tbl pq tm rk t q limit cfg →
       p.1.tenant_id = t) ∧
    (∀ (tbl : List ChunkRow) (t : String) (ids : List String) (r : ChunkRow),
       r ∈ MetadataRepository.fetch_chunks_by_ids tbl t ids →
       r.tenant_id = t) ∧
    (∀ (store : List VectorEntry) (sim : List ℚ → List ℚ → ℚ) (t : String)
       (vec : List ℚ) (k : Nat) (h : PineconeVectorStore.DenseHit),
       h ∈ PineconeVectorStore.dense_search store sim t vec k →
       ∃ e ∈ store, e.ns = t ∧ e.id = h.chunk_id) := by
  refine ⟨?_, ?_, ?_⟩
  · intro tbl pq tm rk t q limit cfg p hp
    simp only [MetadataRepository.search_lexical] at hp
    have h1 := (List.take_sublist _ _).subset hp
    have h2 := (mem_sortByDesc _ _ p).mp h1
    rcases List.mem_map.mp h2 with ⟨c, hc, rfl⟩
    have h3 := (List.mem_filter.mp hc).2
    simp only [Bool.and_eq_true, beq_iff_eq] at h3
    exact h3.1
  · intro tbl t ids r hr
    simp only [MetadataRepository.fetch_chunks_by_ids] at hr
    by_cases hids : ids.isEmpty
    · rw [if_pos hids] at hr
      exact absurd hr (List.not_mem_nil r)
    · rw [if_neg hids] at hr
      have h3 := (List.mem_filter.mp hr).2
      simp only [Bool.and_eq_true, beq_iff_eq] at h3
      exact h3.1
  · intro store sim t vec k h hh
    simp only [PineconeVectorStore.dense_search] at hh
    rcases List.mem_map.mp hh with ⟨e, he, rfl⟩
    have h1 := (List.take_sublist _ _).subset he
    have h2 := (mem_sortByDesc _ _ e).mp h1
    have h3 := List.mem_filter.mp h2
    exact ⟨e, h3.1, beq_iff_eq.mp h3.2, rfl⟩

/-- Witness for C1 at concrete stores: the lexical result row and the
hydrated row belong to tenant `t`, and the dense hit originates from a
vector in namespace `t`. -/
theorem tenant_isolation_witness :
    c1chunk.tenant_id = "t" ∧ c1chunk.tenant_id = "t" ∧
    ∃ e ∈ c1store, e.ns = "t" ∧ e.id = c1hit.chunk_id := by
  refine ⟨?_, ?_, ?_⟩
  · exact tenant_isolation.1 [c1chunk] c1pq c1tm c1rk "t" "hello" 5
      "english" (c1chunk, 1) (by
        show (c1chunk, (1 : ℚ)) ∈
          MetadataRepository.search_lexical [c1chunk] c1pq c1tm c1rk "t"
            "hello" 5 "english"
        exact List.mem_singleton_self _)
  · exact tenant_isolation.2.1 [c1chunk] "t" ["c1"] c1chunk (by
      show c1chunk ∈
        MetadataRepository.fetch_chunks_by_ids [c1chunk] "t" ["c1"]
      exact List.mem_singleton_self _)
  · exact tenant_isolation.2.2 c1store c1sim "t" [1] 5 c1hit (by
      show c1hit ∈ PineconeVectorStore.dense_search c1store c1sim "t" [1] 5
      exact List.mem_singleton_self _)

/-! ## C9 — `find_drift_candidates` -/

theorem staleCheck_iff (li : Option Int) (days now : Int) :
    MetadataRepository.staleCheck li days now = true ↔
    (li = none ∨ ∃ x, li = some x ∧ x < now - days) := by
  cases li <;> simp [MetadataRepository.staleCheck]

theorem tenantFilterOk_iff (tenant : Option String) (rt : String) :
    MetadataRepository.tenantFilterOk tenant rt = true ↔
    ∀ t, tenant = some t → rt = t := by
  cases tenant <;> simp [MetadataRepository.tenantFilterOk]

/-- The drift disjunction in propositional form. -/
theorem driftCondition_iff (chunks : List ChunkRow) (ts te : String)
    (days now : Int) (d : DocumentRow) :
    MetadataRepository.driftCondition chunks ts te days now d = true ↔
    (¬ d.last_schema_version = some ts ∨
     ¬ d.last_embedding_model = some te ∨
     (d.last_indexed_at = none ∨
      ∃ x, d.last_indexed_at = some x ∧ x < now - days) ∨
     ∃ c ∈ chunks, c.document_id = d.document_id ∧
       c.tenant_id = d.tenant_id ∧
       (¬ c.schema_version = ts ∨ ¬ c.embedding_model = te)) := by
  simp only [MetadataRepository.driftCondition, Bool.or_eq_true, bne_iff_ne,
    ne_eq, staleCheck_iff, List.any_eq_true, Bool.and_eq_true, beq_iff_eq,
    and_assoc, or_assoc]

/-- C9 as amended: when `limit` does not truncate, `find_drift_candidates`
returns exactly the documents with `status` `completed` or `processing`
(a status filter the source applies on top of the claimed conditions),
within the tenant filter, satisfying at least one drift condition; the
result is ordered by `updated_at` descending. -/
theorem find_drift_candidates_characterization (docs : List DocumentRow)
    (chunks : List ChunkRow) (ts te : String) (days : Int) (limit : Nat)
    (tenant : Option String) (now : Int) (hlim : docs.length ≤ limit) :
    (∀ d, d ∈ MetadataRepository.find_drift_candidates docs chunks ts te
        days limit tenant now ↔
      (d ∈ docs ∧ (d.status = "completed" ∨ d.status = "processing") ∧
       (∀ t, tenant = some t → d.tenant_id = t) ∧
       (¬ d.last_schema_version = some ts ∨
        ¬ d.last_embedding_model = some te ∨
        (d.last_indexed_at = none ∨
         ∃ x, d.last_indexed_at = some x ∧ x < now - days) ∨
        ∃ c ∈ chunks, c.document_id = d.document_id ∧
          c.tenant_id = d.tenant_id ∧
          (¬ c.schema_version = ts ∨ ¬ c.embedding_model = te)))) ∧
    (MetadataRepository.find_drift_candidates docs chunks ts te days limit
        tenant now).Pairwise (fun a b => b.updated_at ≤ a.updated_at) := by
  have hres : MetadataRepository.find_drift_candidates docs chunks ts te
      days limit tenant now =
      sortByDesc (fun d => d.updated_at) (docs.filter fun d =>
        (d.status == "completed" || d.status == "processing") &&
        MetadataRepository.tenantFilterOk tenant d.tenant_id &&
        MetadataRepository.driftCondition chunks ts te days now d) := by
    unfold MetadataRepository.find_drift_candidates
    refine List.take_of_length_le ?_
    rw [length_sortByDesc]
    exact le_trans (List.length_filter_le _ _) hlim
  constructor
  · intro d
    rw [hres, mem_sortByDesc, List.mem_filter]
    constructor
    · rintro ⟨hd, hp⟩
      simp only [Bool.and_eq_true, Bool.or_eq_true, beq_iff_eq] at hp
      obtain ⟨⟨hstatus, htenant⟩, hdrift⟩ := hp
      exact ⟨hd, hstatus, (tenantFilterOk_iff _ _).mp htenant,
        (driftCondition_iff _ _ _ _ _ _).mp hdrift⟩
    · rintro ⟨hd, hstatus, htenant, hdrift⟩
      refine ⟨hd, ?_⟩
      simp only [Bool.and_eq_true, Bool.or_eq_true, beq_iff_eq]
      exact ⟨⟨hstatus, (tenantFilterOk_iff _ _).mpr htenant⟩,
        (driftCondition_iff _ _ _ _ _ _).mpr hdrift⟩
  · rw [hres]
    exact pairwise_sortByDesc _ _

/-- C9 counterexample: a `failed` document whose `last_schema_version`
differs from the target (and whose `last_indexed_at` is `NULL`) satisfies
the claimed drift conditions, yet `find_drift_candidates` does not return
it: the source additionally requires `status IN ('completed',
'processing')`. -/
theorem find_drift_candidates_status_counterexample :
    ¬ c9failedDoc.last_schema_version = some "new" ∧
    c9failedDoc.last_indexed_at = none ∧
    c9failedDoc ∈ [c9failedDoc] ∧
    MetadataRepository.find_drift_candidates [c9failedDoc] [] "new" "e" 30
      10 none 100 = [] := by
  refine ⟨by decide, rfl, List.mem_singleton_self _, ?_⟩
  decide

/-- Witness for C9 (amended): a `completed` drifting document is returned. -/
theorem find_drift_candidates_witness :
    c9okDoc ∈ MetadataRepository.find_drift_candidates [c9okDoc] [] "new"
      "e" 30 10 none 100 :=
  ((find_drift_candidates_characterization [c9okDoc] [] "new" "e" 30 10
      none 100 (by decide)).1 c9okDoc).mpr
    ⟨List.mem_singleton_self _, Or.inl rfl,
     fun t ht => Option.noConfusion ht, Or.inl (by decide)⟩

/-! ## C7 — reranker failure degradation -/

theorem pairwise_of_forall_rel {α : Type} {R : α → α → Prop}
    (h : ∀ a b, R a b) : ∀ l : List α, l.Pairwise R
  | [] => List.Pairwise.nil
  | x :: xs => List.Pairwise.cons (fun b _ => h x b)
      (pairwise_of_forall_rel h xs)

/-- C7 as amended: a reranker failure never fails retrieval, and the first
`rerank_top_k` candidates of the pre-rerank blended ordering are returned;
the returned count is `min rerank_top_k |candidates|`. When the provider
call raises (timeouts included) the candidates are returned verbatim — no
`rerank_score` key is added; when the provider replies with unparseable
JSON, the candidates keep the blended order but each gains a `rerank_score`
metadata key holding null (rather than the key being absent, as the claim
states). -/
theorem rerank_degradation (cs : List Candidate) (k : Nat) :
    HybridRetriever.rerank .raised cs k = cs.take k ∧
    HybridRetriever.rerank (.replied []) cs k = (cs.take k).map
      (fun c => { c with
        metadata := dictInsert "rerank_score" MetaV.null c.metadata }) ∧
    (HybridRetriever.rerank .raised cs k).length = min k cs.length ∧
    (HybridRetriever.rerank (.replied []) cs k).length =
      min k cs.length := by
  have htake : (cs.take (max (k * 2) k)).take k = cs.take k := by
    rw [List.take_take, min_eq_left (le_max_right (k * 2) k)]
  have hraised : HybridRetriever.rerank .raised cs k = cs.take k := by
    by_cases hcs : cs.isEmpty
    · rw [List.isEmpty_iff.mp hcs]
      simp [HybridRetriever.rerank]
    · unfold HybridRetriever.rerank
      rw [if_neg hcs]
      exact htake
  have hreplied : HybridRetriever.rerank (.replied []) cs k =
      (cs.take k).map (fun c => { c with
        metadata := dictInsert "rerank_score" MetaV.null c.metadata }) := by
    by_cases hcs : cs.isEmpty
    · rw [List.isEmpty_iff.mp hcs]
      simp [HybridRetriever.rerank]
    · unfold HybridRetriever.rerank
      rw [if_neg hcs]
      have hsorted : sortByDesc
          (fun c : Candidate =>
            ((List.lookup c.chunk_id ([] : List (String × ℚ))).getD 0 : ℚ))
          (cs.take (max (k * 2) k)) = cs.take (max (k * 2) k) :=
        sortByDesc_of_sorted _ _
          (pairwise_of_forall_rel (fun a b => le_of_eq rfl) _)
      show ((sortByDesc _ (cs.take (max (k * 2) k))).map _).take k = _
      rw [hsorted, ← List.map_take, htake]
      rfl
  refine ⟨hraised, hreplied, ?_, ?_⟩
  · rw [hraised, List.length_take]
  · rw [hreplied, List.length_map, List.length_take]

/-- C7 counterexample: when the provider returns invalid JSON the call does
not raise, so the fallback `except` branch is not taken; the candidate comes
back in blended order but its metadata CONTAINS a `rerank_score` key bound
to null, contradicting the claim that no `rerank_score` value is set. (On a
raised call — e.g. timeout — the key is indeed absent.) -/
theorem rerank_parse_failure_counterexample :
    (HybridRetriever.rerank (.replied []) [c7cand] 1).map
      (fun c => c.metadata.lookup "rerank_score") = [some MetaV.null] ∧
    (HybridRetriever.rerank (.replied []) [c7cand] 1).map
      (fun c => c.chunk_id) = ["c"] ∧
    (HybridRetriever.rerank .raised [c7cand] 1).map
      (fun c => c.metadata.lookup "rerank_score") = [none] := by
  refine ⟨rfl, rfl, rfl⟩

/-! ## C6 — score blending -/

theorem normalize_eq_specNorm (vals : List ℚ) (v : ℚ) (hv : v ∈ vals) :
    HybridRetriever.normalize vals v = specNorm vals (some v) := by
  cases vals with
  | nil => cases hv
  | cons x xs =>
    have hc : (x :: xs).contains v = true := by simpa using hv
    unfold HybridRetriever.normalize specNorm
    rw [if_pos hc]
    rfl

theorem blendedScore_eq_spec (cs : List Candidate) (c : Candidate)
    (hc : c ∈ cs) :
    HybridRetriever.blendedScore (cs.filterMap fun x => x.dense_score)
      (cs.filterMap fun x => x.lexical_score) c = specBlendScore cs c := by
  unfold HybridRetriever.blendedScore specBlendScore
  have hdense : (match c.dense_score with
      | some v =>
        HybridRetriever.normalize (cs.filterMap fun x => x.dense_score) v
      | none => 0) =
      specNorm (cs.filterMap fun x => x.dense_score) c.dense_score := by
    cases hd : c.dense_score with
    | none => rfl
    | some v =>
      exact normalize_eq_specNorm _ v (List.mem_filterMap.mpr ⟨c, hc, hd⟩)
  have hlex : (match c.lexical_score with
      | some v =>
        HybridRetriever.normalize (cs.filterMap fun x => x.lexical_score) v
      | none => 0) =
      specNorm (cs.filterMap fun x => x.lexical_score) c.lexical_score := by
    cases hl : c.lexical_score with
    | none => rfl
    | some v =>
      exact normalize_eq_specNorm _ v (List.mem_filterMap.mpr ⟨c, hc, hl⟩)
  rw [hdense, hlex]

/-- C6 as amended: `_blend` returns a permutation of the merged candidates,
ordered by non-increasing blended score where the score is exactly the
claimed formula (independent min-max normalization per stream, `1.0` for all
contributors when `max == min`, `0` for missing sides, equal `0.5` weights);
but ties are left in the merged input order (Python's stable sort) rather
than being broken by `chunk_id`: an input on which all scores tie is
returned unchanged. -/
theorem blend_characterization (cs : List Candidate) :
    (HybridRetriever.blend cs).Perm cs ∧
    (HybridRetriever.blend cs).Pairwise
      (fun a b => specBlendScore cs b ≤ specBlendScore cs a) ∧
    ((cs.Pairwise fun a b => specBlendScore cs a = specBlendScore cs b) →
      HybridRetriever.blend cs = cs) := by
  by_cases hcs : cs.isEmpty
  · rw [List.isEmpty_iff.mp hcs]
    exact ⟨by simp [HybridRetriever.blend], by simp [HybridRetriever.blend],
      fun _ => by simp [HybridRetriever.blend]⟩
  · have hblend : HybridRetriever.blend cs = sortByDesc
        (HybridRetriever.blendedScore (cs.filterMap fun c => c.dense_score)
          (cs.filterMap fun c => c.lexical_score)) cs := by
      unfold HybridRetriever.blend
      rw [if_neg hcs]
    refine ⟨?_, ?_, ?_⟩
    · rw [hblend]
      exact sortByDesc_perm _ _
    · rw [hblend]
      refine (pairwise_sortByDesc _ cs).imp_of_mem ?_
      intro a b ha hb h
      have ha' := (mem_sortByDesc _ cs a).mp ha
      have hb' := (mem_sortByDesc _ cs b).mp hb
      rw [← blendedScore_eq_spec cs a ha', ← blendedScore_eq_spec cs b hb']
      exact h
    · intro hp
      rw [hblend]
      apply sortByDesc_of_sorted
      refine hp.imp_of_mem ?_
      intro a b ha hb h
      rw [blendedScore_eq_spec cs a ha, blendedScore_eq_spec cs b hb]
      exact le_of_eq h.symm

/-- Witness for C6 (amended) at a concrete tied input: both candidates have
equal blended scores, and `_blend` keeps the merged order `[b, a]`. -/
theorem blend_characterization_witness :
    HybridRetriever.blend [c6candB, c6candA] = [c6candB, c6candA] :=
  (blend_characterization [c6candB, c6candA]).2.2 (by
    refine List.Pairwise.cons ?_ (List.pairwise_singleton _ _)
    intro b hb
    rw [List.mem_singleton.mp hb]
    norm_num [specBlendScore, specNorm, c6candA, c6candB])

/-- C6 counterexample: on two candidates tied at blended score `1/2`,
`_blend` keeps the merged input order `[b, a]`, while the claimed
chunk-id tie-break would produce `[a, b]`; the candidates differ, so the
claimed ordering is not what `_blend` computes. -/
theorem blend_tie_counterexample :
    (HybridRetriever.blend [c6candB, c6candA]).map
      (fun c => c.chunk_id) = ["b", "a"] ∧
    (blendSpecClaim [c6candB, c6candA]).map
      (fun c => c.chunk_id) = ["a", "b"] ∧
    specBlendScore [c6candB, c6candA] c6candA =
      specBlendScore [c6candB, c6candA] c6candB := by
  refine ⟨?_, ?_, ?_⟩
  · norm_num [HybridRetriever.blend, HybridRetriever.blendedScore,
      HybridRetriever.normalize, sortByDesc, insertTopBy, c6candA, c6candB]
  · have hba : ¬ ('b' < 'a') := by decide
    norm_num [blendSpecClaim, sortByCmp, insertByCmp, claimPrecedes,
      specBlendScore, specNorm, strLexLt, c6candA, c6candB, hba]
  · norm_num [specBlendScore, specNorm, c6candA, c6candB]

/-! ## C2 — no empty-query short-circuit -/

theorem length_rerank_le (outcome : HybridRetriever.RerankOutcome)
    (cs : List Candidate) (k : Nat) :
    (HybridRetriever.rerank outcome cs k).length ≤ k := by
  unfold HybridRetriever.rerank
  by_cases hcs : cs.isEmpty
  · rw [if_pos hcs]
    simp
  · rw [if_neg hcs]
    cases outcome with
    | raised => exact List.length_take_le _ _
    | replied m => exact List.length_take_le _ _

/-- C2 as amended: `retrieve` has no empty-query guard — for every query,
whitespace-only ones included, it performs exactly one embed, one
`dense_search` and one `search_lexical` on the stripped query, and the
diagnostics mirror whatever those calls returned (`returned` capped by
`rerank_top_k`); nothing forces empty results or zero counts. -/
theorem retrieve_always_searches (env : HybridRetriever.RetrievalEnv)
    (cfg : HybridRetriever.RetrievalConfig) (chunksTbl : List ChunkRow)
    (vectors : List VectorEntry) (outcome : HybridRetriever.RerankOutcome)
    (t q : String) :
    (HybridRetriever.retrieve env cfg chunksTbl vectors outcome t q).2 =
      { embed_calls := 1, dense_search_calls := 1,
        search_lexical_calls := 1 } ∧
    (HybridRetriever.retrieve env cfg chunksTbl vectors outcome t
        q).1.diagnostics.dense_retrieved =
      (PineconeVectorStore.dense_search vectors env.sim t
        (env.embed (pyStrip q)) cfg.dense_top_n).length ∧
    (HybridRetriever.retrieve env cfg chunksTbl vectors outcome t
        q).1.diagnostics.lexical_retrieved =
      (MetadataRepository.search_lexical chunksTbl env.plainToTsquery
        env.tsMatch env.rankOf t (pyStrip q) cfg.bm25_top_m
        cfg.tsvector_config).length ∧
    (HybridRetriever.retrieve env cfg chunksTbl vectors outcome t
        q).1.diagnostics.returned =
      (HybridRetriever.retrieve env cfg chunksTbl vectors outcome t
        q).1.results.length ∧
    (HybridRetriever.retrieve env cfg chunksTbl vectors outcome t
        q).1.results.length ≤ cfg.rerank_top_k := by
  refine ⟨rfl, rfl, rfl, rfl, ?_⟩
  exact length_rerank_le _ _ _

/-- C2 counterexample: on the whitespace-only query `"   "` (empty after
stripping) `retrieve` still calls both searches once, the dense search
returns a hit, the merged set and the results are non-empty and the
diagnostics are non-zero — contradicting the claimed empty results, all-zero
diagnostics and absence of search calls. -/
theorem retrieve_empty_query_counterexample :
    pyStrip "   " = "" ∧
    (HybridRetriever.retrieve c2env c2cfg [c2chunk] c2vectors .raised "t"
        "   ").2.dense_search_calls = 1 ∧
    (HybridRetriever.retrieve c2env c2cfg [c2chunk] c2vectors .raised "t"
        "   ").2.search_lexical_calls = 1 ∧
    (HybridRetriever.retrieve c2env c2cfg [c2chunk] c2vectors .raised "t"
        "   ").1.diagnostics.dense_retrieved = 1 ∧
    (HybridRetriever.retrieve c2env c2cfg [c2chunk] c2vectors .raised "t"
        "   ").1.diagnostics.merged_candidates = 1 ∧
    (HybridRetriever.retrieve c2env c2cfg [c2chunk] c2vectors .raised "t"
        "   ").1.results ≠ [] := by
  refine ⟨by decide, rfl, rfl, ?_, ?_, ?_⟩ <;> decide

/-! ## Lemmas about chunk and vector upserts -/

theorem keymap_applyChunkUpsert_of_hasKey (tbl : List ChunkRow)
    (r : ChunkRow)
    (h : MetadataRepository.hasChunkKey tbl r.tenant_id r.chunk_hash =
      true) :
    (MetadataRepository.applyChunkUpsert tbl r).map chunkKeyOf =
      tbl.map chunkKeyOf ∧
    (MetadataRepository.applyChunkUpsert tbl r).length = tbl.length := by
  unfold MetadataRepository.applyChunkUpsert
  rw [if_pos h]
  refine ⟨?_, by simp⟩
  rw [List.map_map]
  refine List.map_congr_left ?_
  intro row _
  by_cases hc : MetadataRepository.chunkKeyMatches r.tenant_id r.chunk_hash
      row = true
  · simp only [Function.comp_apply, if_pos hc]
    rfl
  · simp only [Function.comp_apply, if_neg hc]

theorem hasChunkKey_applyChunkUpsert_self (tbl : List ChunkRow)
    (r : ChunkRow) :
    MetadataRepository.hasChunkKey (MetadataRepository.applyChunkUpsert
      tbl r) r.tenant_id r.chunk_hash = true := by
  unfold MetadataRepository.applyChunkUpsert
  by_cases h : MetadataRepository.hasChunkKey tbl r.tenant_id r.chunk_hash =
    true
  · rw [if_pos h]
    obtain ⟨row, hrow, hm⟩ := List.any_eq_true.mp h
    refine List.any_eq_true.mpr ⟨_, List.mem_map_of_mem _ hrow, ?_⟩
    rw [if_pos hm]
    exact hm
  · rw [if_neg h]
    refine List.any_eq_true.mpr ⟨r, List.mem_append_right _ (by simp), ?_⟩
    simp [MetadataRepository.chunkKeyMatches]

theorem hasChunkKey_applyChunkUpsert_mono (tbl : List ChunkRow)
    (r : ChunkRow) (t hsh : String)
    (hk : MetadataRepository.hasChunkKey tbl t hsh = true) :
    MetadataRepository.hasChunkKey (MetadataRepository.applyChunkUpsert
      tbl r) t hsh = true := by
  unfold MetadataRepository.applyChunkUpsert
  obtain ⟨row, hrow, hm⟩ := List.any_eq_true.mp hk
  by_cases h : MetadataRepository.hasChunkKey tbl r.tenant_id r.chunk_hash =
    true
  · rw [if_pos h]
    refine List.any_eq_true.mpr ⟨_, List.mem_map_of_mem _ hrow, ?_⟩
    by_cases hc : MetadataRepository.chunkKeyMatches r.tenant_id
        r.chunk_hash row = true
    · rw [if_pos hc]
      exact hm
    · rw [if_neg hc]
      exact hm
  · rw [if_neg h]
    exact List.any_eq_true.mpr ⟨row, List.mem_append_left _ hrow, hm⟩

theorem hasChunkKey_foldl_mono (rs : List ChunkRow) (tbl : List ChunkRow)
    (t hsh : String)
    (hk : MetadataRepository.hasChunkKey tbl t hsh = true) :
    MetadataRepository.hasChunkKey
      (rs.foldl MetadataRepository.applyChunkUpsert tbl) t hsh = true := by
  induction rs generalizing tbl with
  | nil => exact hk
  | cons r rs ih =>
    rw [List.foldl_cons]
    exact ih _ (hasChunkKey_applyChunkUpsert_mono tbl r t hsh hk)

theorem hasChunkKey_foldl_self (rs : List ChunkRow) (tbl : List ChunkRow) :
    ∀ r ∈ rs, MetadataRepository.hasChunkKey
      (rs.foldl MetadataRepository.applyChunkUpsert tbl) r.tenant_id
      r.chunk_hash = true := by
  induction rs generalizing tbl with
  | nil => intro r hr; cases hr
  | cons r0 rs ih =>
    intro r hr
    rw [List.foldl_cons]
    rcases List.mem_cons.mp hr with rfl | hr
    · exact hasChunkKey_foldl_mono rs _ _ _
        (hasChunkKey_applyChunkUpsert_self tbl r)
    · exact ih _ r hr

theorem foldl_applyChunkUpsert_conflicts (rs : List ChunkRow)
    (tbl : List ChunkRow)
    (h : ∀ r ∈ rs, MetadataRepository.hasChunkKey tbl r.tenant_id
      r.chunk_hash = true) :
    (rs.foldl MetadataRepository.applyChunkUpsert tbl).map chunkKeyOf =
      tbl.map chunkKeyOf ∧
    (rs.foldl MetadataRepository.applyChunkUpsert tbl).length =
      tbl.length := by
  induction rs generalizing tbl with
  | nil => exact ⟨rfl, rfl⟩
  | cons r rs ih =>
    have hr := h r (List.mem_cons_self r rs)
    have step := keymap_applyChunkUpsert_of_hasKey tbl r hr
    have hrest : ∀ r' ∈ rs, MetadataRepository.hasChunkKey
        (MetadataRepository.applyChunkUpsert tbl r) r'.tenant_id
        r'.chunk_hash = true :=
      fun r' hr' => hasChunkKey_applyChunkUpsert_mono tbl r _ _
        (h r' (List.mem_cons_of_mem r hr'))
    rw [List.foldl_cons]
    have ih' := ih _ hrest
    exact ⟨ih'.1.trans step.1, ih'.2.trans step.2⟩

theorem foldl_applyChunkUpsert_fresh (rs : List ChunkRow)
    (tbl : List ChunkRow)
    (hfresh : ∀ r ∈ rs, ∀ row ∈ tbl,
      ¬(row.tenant_id = r.tenant_id ∧ row.chunk_hash = r.chunk_hash))
    (hnodup : (rs.map chunkKeyOf).Nodup) :
    rs.foldl MetadataRepository.applyChunkUpsert tbl = tbl ++ rs := by
  induction rs generalizing tbl with
  | nil => simp
  | cons r rs ih =>
    have hk : ¬ MetadataRepository.hasChunkKey tbl r.tenant_id
        r.chunk_hash = true := by
      intro hcontra
      obtain ⟨row, hrow, hm⟩ := List.any_eq_true.mp hcontra
      have := hfresh r (List.mem_cons_self r rs) row hrow
      unfold MetadataRepository.chunkKeyMatches at hm
      simp only [Bool.and_eq_true, beq_iff_eq] at hm
      exact this hm
    have happ : MetadataRepository.applyChunkUpsert tbl r = tbl ++ [r] := by
      unfold MetadataRepository.applyChunkUpsert
      rw [if_neg hk]
    rw [List.foldl_cons, happ]
    have hfresh' : ∀ r' ∈ rs, ∀ row ∈ tbl ++ [r],
        ¬(row.tenant_id = r'.tenant_id ∧ row.chunk_hash = r'.chunk_hash) := by
      intro r' hr' row hrow
      rcases List.mem_append.mp hrow with hrow | hrow
      · exact hfresh r' (List.mem_cons_of_mem r hr') row hrow
      · rw [List.mem_singleton.mp hrow]
        intro ⟨h1, h2⟩
        have hkey : chunkKeyOf r = chunkKeyOf r' := by
          unfold chunkKeyOf
          rw [h1, h2]
        have hnotin := (List.nodup_cons.mp hnodup).1
        exact hnotin (hkey ▸ List.mem_map_of_mem chunkKeyOf hr')
    rw [ih _ hfresh' (List.nodup_cons.mp hnodup).2, List.append_assoc]
    rfl

theorem hasVec_upsertVector_self (store : List VectorEntry)
    (v : VectorEntry) :
    hasVec (PineconeVectorStore.upsertVector store v) v.ns v.id = true := by
  unfold PineconeVectorStore.upsertVector
  by_cases h : store.any (fun e => e.ns == v.ns && e.id == v.id) = true
  · rw [if_pos h]
    obtain ⟨e, he, hm⟩ := List.any_eq_true.mp h
    refine List.any_eq_true.mpr ⟨_, List.mem_map_of_mem _ he, ?_⟩
    rw [if_pos hm]
    simp
  · rw [if_neg h]
    refine List.any_eq_true.mpr ⟨v, List.mem_append_right _ (by simp), by simp⟩

theorem hasVec_upsertVector_mono (store : List VectorEntry)
    (v : VectorEntry) (t i : String) (hk : hasVec store t i = true) :
    hasVec (PineconeVectorStore.upsertVector store v) t i = true := by
  unfold PineconeVectorStore.upsertVector
  obtain ⟨e, he, hm⟩ := List.any_eq_true.mp hk
  by_cases h : store.any (fun x => x.ns == v.ns && x.id == v.id) = true
  · rw [if_pos h]
    refine List.any_eq_true.mpr ⟨_, List.mem_map_of_mem _ he, ?_⟩
    by_cases hc : (e.ns == v.ns && e.id == v.id) = true
    · rw [if_pos hc]
      simp only [Bool.and_eq_true, beq_iff_eq] at hm hc ⊢
      rw [← hc.1, ← hc.2]
      exact hm
    · rw [if_neg hc]
      exact hm
  · rw [if_neg h]
    exact List.any_eq_true.mpr ⟨e, List.mem_append_left _ he, hm⟩

theorem hasVec_foldl_mono (vs : List VectorEntry)
    (store : List VectorEntry) (t i : String)
    (hk : hasVec store t i = true) :
    hasVec (vs.foldl PineconeVectorStore.upsertVector store) t i = true := by
  induction vs generalizing store with
  | nil => exact hk
  | cons v vs ih =>
    rw [List.foldl_cons]
    exact ih _ (hasVec_upsertVector_mono store v t i hk)

theorem hasVec_foldl_self (vs : List VectorEntry)
    (store : List VectorEntry) :
    ∀ v ∈ vs, hasVec (vs.foldl PineconeVectorStore.upsertVector store)
      v.ns v.id = true := by
  induction vs generalizing store with
  | nil => intro v hv; cases hv
  | cons v0 vs ih =>
    intro v hv
    rw [List.foldl_cons]
    rcases List.mem_cons.mp hv with rfl | hv
    · exact hasVec_foldl_mono vs _ _ _ (hasVec_upsertVector_self store v)
    · exact ih _ v hv

theorem nsSize_append_one (store : List VectorEntry) (v : VectorEntry)
    (t : String) (hv : v.ns = t) :
    PineconeVectorStore.nsSize (store ++ [v]) t =
      PineconeVectorStore.nsSize store t + 1 := by
  unfold PineconeVectorStore.nsSize
  rw [List.filter_append, List.length_append]
  simp [hv]

theorem nsSize_foldl_upsertVector_fresh (vs : List VectorEntry)
    (store : List VectorEntry) (t : String)
    (hns : ∀ v ∈ vs, v.ns = t)
    (hnodup : (vs.map fun v => v.id).Nodup)
    (hfresh : ∀ v ∈ vs, ∀ e ∈ store, ¬(e.ns = t ∧ e.id = v.id)) :
    PineconeVectorStore.nsSize
        (vs.foldl PineconeVectorStore.upsertVector store) t =
      PineconeVectorStore.nsSize store t + vs.length := by
  induction vs generalizing store with
  | nil => simp
  | cons v vs ih =>
    have hvns := hns v (List.mem_cons_self v vs)
    have hnotany : ¬ store.any (fun e => e.ns == v.ns && e.id == v.id) =
        true := by
      intro hcontra
      obtain ⟨e, he, hm⟩ := List.any_eq_true.mp hcontra
      simp only [Bool.and_eq_true, beq_iff_eq] at hm
      exact hfresh v (List.mem_cons_self v vs) e he ⟨hvns ▸ hm.1, hm.2⟩
    have happ : PineconeVectorStore.upsertVector store v = store ++ [v] := by
      unfold PineconeVectorStore.upsertVector
      rw [if_neg hnotany]
    rw [List.foldl_cons, happ]
    have hfresh' : ∀ w ∈ vs, ∀ e ∈ store ++ [v], ¬(e.ns = t ∧ e.id = w.id) := by
      intro w hw e he
      rcases List.mem_append.mp he with he | he
      · exact hfresh w (List.mem_cons_of_mem v hw) e he
      · rw [List.mem_singleton.mp he]
        intro ⟨_, hid⟩
        have hnotin := (List.nodup_cons.mp hnodup).1
        refine hnotin ?_
        show v.id ∈ List.map (fun x => x.id) vs
        rw [hid]
        exact List.mem_map_of_mem (fun x => x.id) hw
    rw [ih _ (fun w hw => hns w (List.mem_cons_of_mem v hw))
      (List.nodup_cons.mp hnodup).2 hfresh',
      nsSize_append_one store v t hvns, List.length_cons]
    omega

theorem find?_upsert_document_self (docs : List DocumentRow)
    (p : MetadataRepository.DocUpsertParams) (now : Int) :
    ∃ r, (MetadataRepository.upsert_document docs p now).find?
        (fun d => d.document_id == p.document_id) = some r ∧
      r.status = p.status ∧ r.chunk_count = p.chunk_count := by
  unfold MetadataRepository.upsert_document
  by_cases h : docs.any (fun r => r.document_id == p.document_id) = true
  · rw [if_pos h]
    have hsome : (docs.find? (fun r => r.document_id ==
        p.document_id)).isSome = true :=
      List.find?_isSome.mpr (List.any_eq_true.mp h)
    obtain ⟨old, hold⟩ := Option.isSome_iff_exists.mp hsome
    have h2 := find?_map_update (fun r => r.document_id == p.document_id)
      (MetadataRepository.applyDocUpdate p now) (fun a ha => ha) docs
    rw [hold] at h2
    exact ⟨MetadataRepository.applyDocUpdate p now old, h2, rfl, rfl⟩
  · rw [if_neg h]
    refine ⟨MetadataRepository.insertedDoc p now, ?_, rfl, rfl⟩
    rw [List.find?_append]
    have hnone : docs.find? (fun r => r.document_id == p.document_id) =
        none := by
      rw [List.find?_eq_none]
      intro x hx hpx
      exact h (List.any_eq_true.mpr ⟨x, hx, hpx⟩)
    rw [hnone]
    simp [MetadataRepository.insertedDoc]

/-! ## C3 — duplicate delivery -/

theorem buildChunkRecord_tenant_id (hash : String → String)
    (tsvectorOf : String → String → List String) (em t d sv tc : String)
    (src : Option String) (now : Int) (c : ChunkEmbedding) :
    (MetadataRepository.buildChunkRecord hash tsvectorOf em t d sv tc src
      now c).tenant_id = t := rfl

theorem buildChunkRecord_chunk_hash (hash : String → String)
    (tsvectorOf : String → String → List String) (em t d sv tc : String)
    (src : Option String) (now : Int) (c : ChunkEmbedding) :
    (MetadataRepository.buildChunkRecord hash tsvectorOf em t d sv tc src
      now c).chunk_hash = hash c.text := rfl

theorem buildChunkRecord_document_id (hash : String → String)
    (tsvectorOf : String → String → List String) (em t d sv tc : String)
    (src : Option String) (now : Int) (c : ChunkEmbedding) :
    (MetadataRepository.buildChunkRecord hash tsvectorOf em t d sv tc src
      now c).document_id = d := rfl

theorem buildChunkRecord_chunk_id (hash : String → String)
    (tsvectorOf : String → String → List String) (em t d sv tc : String)
    (src : Option String) (now : Int) (c : ChunkEmbedding) :
    (MetadataRepository.buildChunkRecord hash tsvectorOf em t d sv tc src
      now c).chunk_id = c.chunk_id := rfl

theorem vectorOf_ns (t d : String) (c : ChunkEmbedding) :
    (PineconeVectorStore.vectorOf t d c).ns = t := rfl

theorem vectorOf_id (t d : String) (c : ChunkEmbedding) :
    (PineconeVectorStore.vectorOf t d c).id = c.chunk_id := rfl

theorem process_job_chunks (st : StoreState) (hash : String → String)
    (tsvectorOf : String → String → List String) (em sv tc : String)
    (job : PubSubIngestionWorker.IngestionJob) (sub : Option Int)
    (e : List ChunkEmbedding) (now : Int) (he : e.isEmpty = false) :
    (PubSubIngestionWorker.process_job st hash tsvectorOf em sv tc job sub
        e now).chunks =
      (e.map (MetadataRepository.buildChunkRecord hash tsvectorOf em
        job.tenant_id job.document_id sv tc (some job.gcs_uri)
        now)).foldl MetadataRepository.applyChunkUpsert st.chunks := by
  unfold PubSubIngestionWorker.process_job MetadataRepository.upsert_chunks
  simp [he]

theorem process_job_chunks_empty (st : StoreState) (hash : String → String)
    (tsvectorOf : String → String → List String) (em sv tc : String)
    (job : PubSubIngestionWorker.IngestionJob) (sub : Option Int)
    (now : Int) :
    (PubSubIngestionWorker.process_job st hash tsvectorOf em sv tc job sub
        [] now).chunks = st.chunks := rfl

theorem process_job_vectors (st : StoreState) (hash : String → String)
    (tsvectorOf : String → String → List String) (em sv tc : String)
    (job : PubSubIngestionWorker.IngestionJob) (sub : Option Int)
    (e : List ChunkEmbedding) (now : Int) (he : e.isEmpty = false) :
    (PubSubIngestionWorker.process_job st hash tsvectorOf em sv tc job sub
        e now).vectors =
      (e.map (PineconeVectorStore.vectorOf job.tenant_id
        job.document_id)).foldl PineconeVectorStore.upsertVector
        st.vectors := by
  unfold PubSubIngestionWorker.process_job
    PineconeVectorStore.upsert_embeddings
  have hve : (e.map (PineconeVectorStore.vectorOf job.tenant_id
      job.document_id)).isEmpty = false := by
    cases e with
    | nil => cases he
    | cons c cs => rfl
  simp [hve]

theorem process_job_vectors_empty (st : StoreState)
    (hash : String → String)
    (tsvectorOf : String → String → List String) (em sv tc : String)
    (job : PubSubIngestionWorker.IngestionJob) (sub : Option Int)
    (now : Int) :
    (PubSubIngestionWorker.process_job st hash tsvectorOf em sv tc job sub
        [] now).vectors = st.vectors := rfl

theorem process_job_doc_completed (st : StoreState)
    (hash : String → String)
    (tsvectorOf : String → String → List String) (em sv tc : String)
    (job : PubSubIngestionWorker.IngestionJob) (sub : Option Int)
    (e : List ChunkEmbedding) (now : Int) :
    ∃ r, (PubSubIngestionWorker.process_job st hash tsvectorOf em sv tc job
        sub e now).documents.find?
        (fun d => d.document_id == job.document_id) = some r ∧
      r.status = "completed" ∧ r.chunk_count = some (e.length : Int) := by
  exact find?_upsert_document_self
    (MetadataRepository.upsert_document st.documents
      { document_id := job.document_id, tenant_id := job.tenant_id,
        filename := job.filename, gcs_uri := job.gcs_uri,
        status := "processing", submitted_at := sub } now)
    { document_id := job.document_id, tenant_id := job.tenant_id,
      filename := job.filename, gcs_uri := job.gcs_uri,
      status := "completed", chunk_count := some (e.length : Int),
      last_indexed_at := some now, last_schema_version := some sv,
      last_embedding_model := some em } now

/-- C3 as amended: delivering the same ingestion message twice (same chunk
texts per pipeline determinism, fresh `uuid4` chunk ids per run) leaves the
chunks table unchanged in its `(tenant_id, content_hash)` key list and its
row count, and writes the same `documents.chunk_count` as the first run —
but the dense namespace does NOT keep its size: the second run upserts its
chunks under fresh vector ids, so the namespace grows by the second batch's
size. -/
theorem duplicate_delivery (st0 st1 st2 : StoreState)
    (hash : String → String) (tsvectorOf : String → String → List String)
    (em sv tc : String) (job : PubSubIngestionWorker.IngestionJob)
    (sub : Option Int) (e1 e2 : List ChunkEmbedding) (now1 now2 : Int)
    (h1 : st1 = PubSubIngestionWorker.process_job st0 hash tsvectorOf em sv
      tc job sub e1 now1)
    (h2 : st2 = PubSubIngestionWorker.process_job st1 hash tsvectorOf em sv
      tc job sub e2 now2)
    (htext : e1.map (fun c => c.text) = e2.map (fun c => c.text))
    (hids : (e2.map fun c => c.chunk_id).Nodup)
    (hfresh : ∀ c ∈ e2, ∀ v ∈ st1.vectors,
      ¬(v.ns = job.tenant_id ∧ v.id = c.chunk_id)) :
    st2.chunks.map chunkKeyOf = st1.chunks.map chunkKeyOf ∧
    st2.chunks.length = st1.chunks.length ∧
    (∃ r, st2.documents.find?
        (fun d => d.document_id == job.document_id) = some r ∧
      r.status = "completed" ∧ r.chunk_count = some (e1.length : Int)) ∧
    (∃ r, st1.documents.find?
        (fun d => d.document_id == job.document_id) = some r ∧
      r.status = "completed" ∧ r.chunk_count = some (e1.length : Int)) ∧
    PineconeVectorStore.nsSize st2.vectors job.tenant_id =
      PineconeVectorStore.nsSize st1.vectors job.tenant_id + e2.length := by
  have hlen : e1.length = e2.length := by
    have := congrArg List.length htext
    simpa using this
  have hdoc2 : ∃ r, st2.documents.find?
      (fun d => d.document_id == job.document_id) = some r ∧
      r.status = "completed" ∧ r.chunk_count = some (e1.length : Int) := by
    rw [h2, hlen]
    exact process_job_doc_completed _ _ _ _ _ _ _ _ _ _
  have hdoc1 : ∃ r, st1.documents.find?
      (fun d => d.document_id == job.document_id) = some r ∧
      r.status = "completed" ∧ r.chunk_count = some (e1.length : Int) := by
    rw [h1]
    exact process_job_doc_completed _ _ _ _ _ _ _ _ _ _
  by_cases he2 : e2.isEmpty
  · have he2' : e2 = [] := List.isEmpty_iff.mp he2
    subst he2'
    refine ⟨?_, ?_, hdoc2, hdoc1, ?_⟩
    · rw [h2, process_job_chunks_empty]
    · rw [h2, process_job_chunks_empty]
    · rw [h2, process_job_vectors_empty]
      simp
  · have he2' : e2.isEmpty = false := Bool.eq_false_iff.mpr he2
    have hchunks2 := process_job_chunks st1 hash tsvectorOf em sv tc job
      sub e2 now2 he2'
    -- every second-run record conflicts with a key already present after
    -- the first run
    have he1' : e1.isEmpty = false := by
      cases e1 with
      | nil =>
        cases e2 with
        | nil => cases he2 rfl
        | cons c cs => cases hlen
      | cons c cs => rfl
    have hchunks1 := process_job_chunks st0 hash tsvectorOf em sv tc job
      sub e1 now1 he1'
    have hconf : ∀ r ∈ e2.map (MetadataRepository.buildChunkRecord hash
        tsvectorOf em job.tenant_id job.document_id sv tc
        (some job.gcs_uri) now2),
        MetadataRepository.hasChunkKey st1.chunks r.tenant_id
          r.chunk_hash = true := by
      intro r hr
      rcases List.mem_map.mp hr with ⟨c2, hc2, rfl⟩
      have htext2 : c2.text ∈ e1.map (fun c => c.text) := by
        rw [htext]
        exact List.mem_map_of_mem _ hc2
      rcases List.mem_map.mp htext2 with ⟨c1, hc1, htexteq⟩
      have hkey := hasChunkKey_foldl_self _ st0.chunks
        (MetadataRepository.buildChunkRecord hash tsvectorOf em
          job.tenant_id job.document_id sv tc (some job.gcs_uri) now1 c1)
        (List.mem_map_of_mem _ hc1)
      rw [buildChunkRecord_tenant_id, buildChunkRecord_chunk_hash]
      rw [buildChunkRecord_tenant_id, buildChunkRecord_chunk_hash,
        htexteq] at hkey
      rw [← hchunks1, ← h1] at hkey
      exact hkey
    have hfold := foldl_applyChunkUpsert_conflicts _ st1.chunks hconf
    refine ⟨by rw [h2, hchunks2]; exact hfold.1,
      by rw [h2, hchunks2]; exact hfold.2, hdoc2, hdoc1, ?_⟩
    -- namespace size grows by the fresh batch
    have hvect2 := process_job_vectors st1 hash tsvectorOf em sv tc job sub
      e2 now2 he2'
    have hns : ∀ v ∈ e2.map (PineconeVectorStore.vectorOf job.tenant_id
        job.document_id), v.ns = job.tenant_id := by
      intro v hv
      rcases List.mem_map.mp hv with ⟨c, _, rfl⟩
      rfl
    have hnodup : ((e2.map (PineconeVectorStore.vectorOf job.tenant_id
        job.document_id)).map fun v => v.id).Nodup := by
      rw [List.map_map]
      exact hids
    have hfresh' : ∀ v ∈ e2.map (PineconeVectorStore.vectorOf
        job.tenant_id job.document_id), ∀ en ∈ st1.vectors,
        ¬(en.ns = job.tenant_id ∧ en.id = v.id) := by
      intro v hv en hen
      rcases List.mem_map.mp hv with ⟨c, hc, rfl⟩
      exact hfresh c hc en hen
    have := nsSize_foldl_upsertVector_fresh _ st1.vectors job.tenant_id hns
      hnodup hfresh'
    rw [h2, hvect2, this, List.length_map]

/-- C3 counterexample: delivering the one-chunk message twice (same text
`hello`, fresh ids `id1` then `id2`) leaves the chunk table at one row but
grows the tenant's vector namespace from 1 to 2 — the namespace size is NOT
unchanged as claimed. -/
theorem duplicate_delivery_namespace_counterexample :
    PineconeVectorStore.nsSize c3st1.vectors "t" = 1 ∧
    PineconeVectorStore.nsSize c3st2.vectors "t" = 2 ∧
    c3st1.chunks.length = 1 ∧ c3st2.chunks.length = 1 := by
  decide

/-- Witness for C3 (amended) at the concrete duplicate delivery. -/
theorem duplicate_delivery_witness :
    c3st2.chunks.map chunkKeyOf = c3st1.chunks.map chunkKeyOf ∧
    c3st2.chunks.length = c3st1.chunks.length ∧
    (∃ r, c3st2.documents.find?
        (fun d => d.document_id == c3job.document_id) = some r ∧
      r.status = "completed" ∧ r.chunk_count = some (c3e1.length : Int)) ∧
    (∃ r, c3st1.documents.find?
        (fun d => d.document_id == c3job.document_id) = some r ∧
      r.status = "completed" ∧ r.chunk_count = some (c3e1.length : Int)) ∧
    PineconeVectorStore.nsSize c3st2.vectors c3job.tenant_id =
      PineconeVectorStore.nsSize c3st1.vectors c3job.tenant_id +
        c3e2.length :=
  duplicate_delivery emptyState c3st1 c3st2 idHash noTsv "e" "sv" "english"
    c3job none c3e1 c3e2 1 2 rfl rfl (by decide) (by decide) (by decide)

/-! ## C4 — ingestion coherence -/

/-- C4 as amended: after a successful `process_job` of document `d` into a
state with no prior chunks for the tenant or the document, and whose
pipeline output has pairwise-distinct content hashes, the number of chunk
rows of `d` equals the recorded `documents.chunk_count`, and every chunk row
of `d` has its `chunk_id` present as a vector id in the dense namespace
`tenant_id`. (Without the distinct-hash assumption the row count can fall
below `chunk_count`: equal-text chunks collapse into one row.) -/
theorem ingestion_coherence (st0 st1 : StoreState)
    (hash : String → String) (tsvectorOf : String → String → List String)
    (em sv tc : String) (job : PubSubIngestionWorker.IngestionJob)
    (sub : Option Int) (e : List ChunkEmbedding) (now : Int)
    (h1 : st1 = PubSubIngestionWorker.process_job st0 hash tsvectorOf em sv
      tc job sub e now)
    (hhash : (e.map fun c => hash c.text).Nodup)
    (htenant : ∀ row ∈ st0.chunks, ¬ row.tenant_id = job.tenant_id)
    (hdocrow : ∀ row ∈ st0.chunks, ¬ row.document_id = job.document_id) :
    (st1.chunks.filter fun r =>
      r.document_id == job.document_id).length = e.length ∧
    (∃ r, st1.documents.find?
        (fun d => d.document_id == job.document_id) = some r ∧
      r.status = "completed" ∧ r.chunk_count = some (e.length : Int)) ∧
    ∀ row ∈ st1.chunks, row.document_id = job.document_id →
      ∃ v ∈ st1.vectors, v.ns = job.tenant_id ∧ v.id = row.chunk_id := by
  have hdoc : ∃ r, st1.documents.find?
      (fun d => d.document_id == job.document_id) = some r ∧
      r.status = "completed" ∧ r.chunk_count = some (e.length : Int) := by
    rw [h1]
    exact process_job_doc_completed _ _ _ _ _ _ _ _ _ _
  by_cases he : e.isEmpty
  · have he' : e = [] := List.isEmpty_iff.mp he
    subst he'
    have hch : st1.chunks = st0.chunks := by
      rw [h1, process_job_chunks_empty]
    refine ⟨?_, hdoc, ?_⟩
    · rw [hch]
      have : st0.chunks.filter (fun r =>
          r.document_id == job.document_id) = [] := by
        rw [List.filter_eq_nil_iff]
        intro row hrow hcontra
        exact hdocrow row hrow (beq_iff_eq.mp hcontra)
      rw [this]
      rfl
    · intro row hrow hd
      rw [hch] at hrow
      exact absurd hd (hdocrow row hrow)
  · have he' : e.isEmpty = false := Bool.eq_false_iff.mpr he
    have hchunks := process_job_chunks st0 hash tsvectorOf em sv tc job sub
      e now he'
    have hvect := process_job_vectors st0 hash tsvectorOf em sv tc job sub
      e now he'
    have hfresh : ∀ r ∈ e.map (MetadataRepository.buildChunkRecord hash
        tsvectorOf em job.tenant_id job.document_id sv tc
        (some job.gcs_uri) now), ∀ row ∈ st0.chunks,
        ¬(row.tenant_id = r.tenant_id ∧ row.chunk_hash = r.chunk_hash) := by
      intro r hr row hrow
      rcases List.mem_map.mp hr with ⟨c, _, rfl⟩
      rw [buildChunkRecord_tenant_id]
      intro ⟨hcontra, _⟩
      exact htenant row hrow hcontra
    have hnodup : ((e.map (MetadataRepository.buildChunkRecord hash
        tsvectorOf em job.tenant_id job.document_id sv tc
        (some job.gcs_uri) now)).map chunkKeyOf).Nodup := by
      rw [List.map_map]
      have heq : (chunkKeyOf ∘ MetadataRepository.buildChunkRecord hash
          tsvectorOf em job.tenant_id job.document_id sv tc
          (some job.gcs_uri) now) =
          (fun h => (job.tenant_id, h)) ∘ (fun c => hash c.text) := rfl
      rw [heq, ← List.map_map]
      refine List.Nodup.map ?_ hhash
      intro a b hab
      exact congrArg Prod.snd hab
    have happly : st1.chunks = st0.chunks ++ e.map
        (MetadataRepository.buildChunkRecord hash tsvectorOf em
          job.tenant_id job.document_id sv tc (some job.gcs_uri) now) := by
      rw [h1, hchunks]
      exact foldl_applyChunkUpsert_fresh _ _ hfresh hnodup
    refine ⟨?_, hdoc, ?_⟩
    · rw [happly, List.filter_append]
      have hnil : st0.chunks.filter (fun r =>
          r.document_id == job.document_id) = [] := by
        rw [List.filter_eq_nil_iff]
        intro row hrow hcontra
        exact hdocrow row hrow (beq_iff_eq.mp hcontra)
      have hall : (e.map (MetadataRepository.buildChunkRecord hash
          tsvectorOf em job.tenant_id job.document_id sv tc
          (some job.gcs_uri) now)).filter (fun r =>
          r.document_id == job.document_id) = e.map
          (MetadataRepository.buildChunkRecord hash tsvectorOf em
            job.tenant_id job.document_id sv tc (some job.gcs_uri)
            now) := by
        rw [List.filter_eq_self]
        intro r hr
        rcases List.mem_map.mp hr with ⟨c, _, rfl⟩
        exact beq_iff_eq.mpr (buildChunkRecord_document_id _ _ _ _ _ _ _
          _ _ _)
      rw [hnil, hall]
      simp
    · intro row hrow hd
      rw [happly] at hrow
      rcases List.mem_append.mp hrow with hrow | hrow
      · exact absurd hd (hdocrow row hrow)
      · rcases List.mem_map.mp hrow with ⟨c, hc, rfl⟩
        have hvec := hasVec_foldl_self (e.map (PineconeVectorStore.vectorOf
          job.tenant_id job.document_id)) st0.vectors
          (PineconeVectorStore.vectorOf job.tenant_id job.document_id c)
          (List.mem_map_of_mem _ hc)
        rw [← hvect, ← h1] at hvec
        obtain ⟨v, hv, hm⟩ := List.any_eq_true.mp hvec
        simp only [Bool.and_eq_true, beq_iff_eq] at hm
        exact ⟨v, hv, hm.1, hm.2⟩

/-- C4 counterexample: a document whose pipeline output contains two chunks
with identical text stores only one chunk row (the second upsert conflicts
on `(tenant_id, content_hash)`), while `documents.chunk_count` records 2 =
`len(chunk_embeddings)` — so `|Chunk(d)| ≠ chunk_count`. -/
theorem ingestion_count_counterexample :
    (c4st.chunks.filter fun r => r.document_id == "d").length = 1 ∧
    (c4st.documents.find? fun d => d.document_id == "d").map
      (fun r => r.chunk_count) = some (some 2) ∧
    c4dup.length = 2 := by
  decide

/-- Witness for C4 (amended) at the distinct-text ingestion. -/
theorem ingestion_coherence_witness :
    (c4wit.chunks.filter fun r =>
      r.document_id == c3job.document_id).length = c4distinct.length ∧
    (∃ r, c4wit.documents.find?
        (fun d => d.document_id == c3job.document_id) = some r ∧
      r.status = "completed" ∧
      r.chunk_count = some (c4distinct.length : Int)) ∧
    ∀ row ∈ c4wit.chunks, row.document_id = c3job.document_id →
      ∃ v ∈ c4wit.vectors, v.ns = c3job.tenant_id ∧ v.id = row.chunk_id :=
  ingestion_coherence emptyState c4wit idHash noTsv "e" "sv" "english"
    c3job none c4distinct 1 rfl (by decide) (by decide) (by decide)

